import Mathlib

/-!
# Verification of the `cuite-reactive` fine-grained reactive runtime

This file is a shallow embedding of the reactive core of the repository
(`crates/cuite-reactive/src/{runtime,node,signal,effect}.rs`) together with
proofs and refutations of the specification claims about it.

Modelling conventions:

* `NodeId` is a `Nat` drawn from an ever-increasing counter (`nextId`), so ids
  are never reused; this realises the slotmap guarantee that the id of a
  removed node never aliases a live node.
* The type-erased value cell (`Rc<RefCell<dyn Any>>`) is modelled
  monomorphically as `Int`; downcast failures (a fatal programmer error in the
  source) are outside the scope of the claims treated here.
* Hash sets of node ids are modelled as duplicate-free lists in insertion
  order; hash maps keyed by ids are modelled as functions `Nat → Option _`.
* Effect computations (arbitrary Rust closures in the source) are
  defunctionalised as lists of `Action`s covering exactly the operations the
  specification scenarios perform: tracked/untracked signal reads that append
  to an external log, signal writes, and nested signal/effect creation.  The
  external log (an `Rc<RefCell<Vec<_>>>` on the test side in the source) is a
  `log` field of the state.
* Recursion in the source (effects writing signals, which re-enters the
  scheduler) is unbounded, so the interpreter is fuel-indexed; running out of
  fuel returns the state unchanged (and `none` for the marking DFS, whose
  divergence is itself the subject of a claim).
* A second, slot-versioned embedding (namespace `V` below) models slotmap
  keys as (slot index, slot version) pairs with slot reuse and the
  `SecondaryMap::entry` guards of the source in full; it adjudicates the
  mirror-invariant claim, whose failure mode needs a stale key.
-/

namespace Cuite

/-- Propagation states, in the declaration order of `NodeState` in `node.rs`
(the derived Rust `Ord` is this order: Clean < Check < Dirty < DirtyMarked). -/
inductive NodeState where
  | Clean
  | Check
  | Dirty
  | DirtyMarked
deriving DecidableEq, Repr

/-- `state >= NodeState::Dirty` in the derived Rust ordering. -/
def NodeState.geDirty : NodeState → Bool
  | .Dirty => true
  | .DirtyMarked => true
  | _ => false

/-- Defunctionalised effect computations: the closure bodies used by the
specification's scenarios.  `getSig` is `signal.get()` followed by pushing the
value onto the external log; `getSigUntracked` is the same via
`with_untracked`; `setSig` is `signal.set(v)`; `mkSignal` / `mkEffect` are
`create_signal` / `create_effect` performed inside the running effect. -/
inductive Action where
  | getSig (s : Nat)
  | getSigUntracked (s : Nat)
  | setSig (s : Nat) (v : Int)
  | mkSignal (v : Int)
  | mkEffect (body : List Action)

/-- `NodeKind` from `node.rs`: a signal is a pure value holder, an effect
holds a computation. -/
inductive NodeKind where
  | signal
  | effect (comp : List Action)

/-- `Node` from `node.rs`. -/
structure Node where
  value : Option Int
  state : NodeState
  kind : NodeKind

/-- The `Runtime` state from `runtime.rs`.  `log` models the external
`Rc<RefCell<Vec<_>>>` side channel that the scenario closures append to. -/
structure Runtime where
  nodes : Nat → Option Node
  nodeSubscribers : Nat → Option (List Nat)
  nodeSources : Nat → Option (List Nat)
  nodeParents : Nat → Option Nat
  nodeChildren : Nat → Option (List Nat)
  scope : Option Nat
  observer : Option Nat
  pendingEffects : List Nat
  nextId : Nat
  log : List Int

/-- The fresh thread-local runtime (`Runtime::default()`). -/
def freshRuntime : Runtime where
  nodes := fun _ => none
  nodeSubscribers := fun _ => none
  nodeSources := fun _ => none
  nodeParents := fun _ => none
  nodeChildren := fun _ => none
  scope := none
  observer := none
  pendingEffects := []
  nextId := 0
  log := []

/-- Point update of a function-backed map. -/
def updf {α : Type} (m : Nat → α) (k : Nat) (v : α) : Nat → α :=
  fun x => if x = k then v else m x

/-- Idempotent hash-set insertion (`AHashSet::insert`). -/
def insertId (l : List Nat) (x : Nat) : List Nat :=
  if x ∈ l then l else l ++ [x]

/-- Hash-set removal (`AHashSet::remove`). -/
def removeId (l : List Nat) (c : Nat) : List Nat :=
  l.filter (fun y => y ≠ c)

/-- For every key in `keys`, remove `c` from that key's set (if the key has an
entry); embeds the purge loops in `Runtime::cleanup_children`. -/
def removeFromMany (m : Nat → Option (List Nat)) (keys : List Nat) (c : Nat) :
    Nat → Option (List Nat) :=
  fun x => if x ∈ keys then (m x).map (fun l => removeId l c) else m x

/-- `Runtime::get_node_value` composed with reading the cell: the value of a
node, if the node exists and has a value. -/
def withValue (rt : Runtime) (id : Nat) : Option Int :=
  (rt.nodes id).bind (fun n => n.value)

/-- Private helper `Runtime::node_state`: a missing node reads as Clean. -/
def nodeState (rt : Runtime) (id : Nat) : NodeState :=
  match rt.nodes id with
  | some node => node.state
  | none => NodeState.Clean

/-- Set the state of a node if it is live (the `nodes.get_mut` pattern). -/
def setNodeState (rt : Runtime) (id : Nat) (s : NodeState) : Runtime :=
  match rt.nodes id with
  | some node => { rt with nodes := updf rt.nodes id (some { node with state := s }) }
  | none => rt

/-- Overwrite the value cell of a live node (writes through the `Rc` cell in
the source; a write to a node that was removed mid-run lands in an orphaned
cell and is invisible, hence the no-op on `none`). -/
def setNodeValue (rt : Runtime) (id : Nat) (v : Option Int) : Runtime :=
  match rt.nodes id with
  | some node => { rt with nodes := updf rt.nodes id (some { node with value := v }) }
  | none => rt

/-- `Runtime::mark_clean`. -/
def markClean (rt : Runtime) (id : Nat) : Runtime :=
  setNodeState rt id NodeState.Clean

/-- Append an effect to the pending queue. -/
def pushPending (rt : Runtime) (c : Nat) : Runtime :=
  { rt with pendingEffects := rt.pendingEffects ++ [c] }

/-- `Runtime::create_node`.  Note the faithful embedding of the source's
children bookkeeping: the new id is inserted into the children set keyed by
the new id itself (`node_children.entry(id)`), not into the children set of
`scope`, while `node_parents` does record `scope` as the parent. -/
def createNode (rt : Runtime) (node : Node) : Nat × Runtime :=
  let id := rt.nextId
  let rt1 := { rt with nodes := updf rt.nodes id (some node), nextId := id + 1 }
  match rt1.scope with
  | none => (id, rt1)
  | some scope =>
    let rt2 := { rt1 with nodeParents := updf rt1.nodeParents id (some scope) }
    let cs := (rt2.nodeChildren id).getD []
    (id, { rt2 with nodeChildren := updf rt2.nodeChildren id (some (insertId cs id)) })

/-- `Runtime::create_signal`: a signal is created Clean with its value. -/
def createSignalR (rt : Runtime) (v : Int) : Nat × Runtime :=
  createNode rt { value := some v, state := NodeState.Clean, kind := NodeKind.signal }

/-- `Runtime::create_effect`: an effect is created Dirty; the wrapped initial
value cell (`wrap_value(None::<T>)`) is present from the start. -/
def createEffectR (rt : Runtime) (v : Int) (comp : List Action) : Nat × Runtime :=
  createNode rt { value := some v, state := NodeState.Dirty, kind := NodeKind.effect comp }

/-- `Runtime::track`: if an observer is active, insert it into the tracked
node's subscriber set and the tracked node into the observer's source set.
In the source each side goes through a guarded `SecondaryMap::entry(...)`,
which refuses a stale key — one whose slot the map has since removed or
re-occupied under a newer id.  Ids in this model are never reused and no
scenario below tracks a disposed id while an observer is active, so both
guards always pass and are elided here; the slot-versioned embedding `V`
further below carries the guards in full, and their one-sided failure on a
stale id is the subject of the C4 correction. -/
def track (rt : Runtime) (id : Nat) : Runtime :=
  match rt.observer with
  | none => rt
  | some obs =>
    let subs := (rt.nodeSubscribers id).getD []
    let rt1 := { rt with nodeSubscribers := updf rt.nodeSubscribers id (some (insertId subs obs)) }
    let srcs := (rt1.nodeSources obs).getD []
    { rt1 with nodeSources := updf rt1.nodeSources obs (some (insertId srcs id)) }

/-- `Runtime::with_observer`: save the observer/scope pair, install `obs` as
both, run the body, and restore the pair.  The source has no unwind guard, so
the restore only happens on normal return; a body result of `none` models a
panic propagating out of the closure, in which case the runtime is left with
whatever observer/scope the body last installed. -/
def withObserver {α : Type} (rt : Runtime) (obs : Nat)
    (body : Runtime → Option α × Runtime) : Option α × Runtime :=
  let prevObserver := rt.observer
  let prevScope := rt.scope
  let rt1 := { rt with observer := some obs, scope := some obs }
  match body rt1 with
  | (some ret, rt2) => (some ret, { rt2 with observer := prevObserver, scope := prevScope })
  | (none, rt2) => (none, rt2)

/-- The per-child body of `Runtime::cleanup_children`: remove the child's
subscriber entry and purge the child from the source set of each of those
subscribers, then remove the child's source entry and purge the child from the
subscriber set of each of those sources, then drop its parent entry and the
node itself.  A missing entry is read as the empty set, over which the purge
loop is a pointwise no-op, exactly as the source's skipped loop. -/
def purgeChild (rt : Runtime) (c : Nat) : Runtime :=
  let subsC := (rt.nodeSubscribers c).getD []
  let rt1 := { rt with nodeSubscribers := updf rt.nodeSubscribers c none,
                       nodeSources := removeFromMany rt.nodeSources subsC c }
  let srcsC := (rt1.nodeSources c).getD []
  let rt2 := { rt1 with nodeSources := updf rt1.nodeSources c none,
                        nodeSubscribers := removeFromMany rt1.nodeSubscribers srcsC c }
  { rt2 with nodeParents := updf rt2.nodeParents c none,
             nodes := updf rt2.nodes c none }

/-- Mark every live direct subscriber of `id` Dirty: the tail of
`Runtime::update` once the node reports "changed". -/
def markSubscribersDirty (rt : Runtime) (id : Nat) : Runtime :=
  match rt.nodeSubscribers id with
  | none => rt
  | some subs => subs.foldl (fun r c => setNodeState r c NodeState.Dirty) rt

/-- The marking step applied to a visited node `c` (with contents `node`)
inside `mark_descendants_dirty`: a Clean node is promoted to Check, and a
visited effect other than the current observer is appended to the pending
queue. -/
def visitNode (rt : Runtime) (c : Nat) (node : Node) : Runtime :=
  let rt1 := if node.state = NodeState.Clean then setNodeState rt c NodeState.Check else rt
  match node.kind with
  | NodeKind.effect _ => if rt.observer = some c then rt1 else pushPending rt1 c
  | NodeKind.signal => rt1

/-- The iterative depth-first traversal inside
`Runtime::mark_descendants_dirty`, with the borrowed-iterator stack of the
source replaced (as the spec's design notes direct) by an explicit stack of
remaining-children frames.  A node already at Check or DirtyMarked is skipped;
otherwise it is visited (`visitNode`) and its own subscribers are pushed.
Returns `none` when the fuel runs out. -/
def markDfs : Nat → Runtime → List (List Nat) → Option Runtime
  | 0, _, _ => none
  | _ + 1, rt, [] => some rt
  | fuel + 1, rt, [] :: rest => markDfs fuel rt rest
  | fuel + 1, rt, (c :: cs) :: rest =>
    match rt.nodes c with
    | none => markDfs fuel rt (cs :: rest)
    | some node =>
      if node.state = NodeState.Check ∨ node.state = NodeState.DirtyMarked then
        markDfs fuel rt (cs :: rest)
      else
        let rt2 := visitNode rt c node
        match rt2.nodeSubscribers c with
        | none => markDfs fuel rt2 (cs :: rest)
        | some children => markDfs fuel rt2 (children :: cs :: rest)

/-- `Runtime::mark_descendants_dirty`: a missing root or a root already at
DirtyMarked returns immediately; otherwise the root becomes DirtyMarked and
the DFS runs over its subscribers (the subscriber map is not modified by the
state write, so it is read from the incoming state). -/
def markDescendantsDirty (fuel : Nat) (rt : Runtime) (root : Nat) : Option Runtime :=
  match rt.nodes root with
  | none => some rt
  | some node =>
    if node.state = NodeState.DirtyMarked then some rt
    else
      match rt.nodeSubscribers root with
      | none => some (setNodeState rt root NodeState.DirtyMarked)
      | some children =>
        markDfs fuel (setNodeState rt root NodeState.DirtyMarked) [children]

/-- Total wrapper used by the interpreter: fuel exhaustion of the marking DFS
falls back to the pre-marking state. -/
def markDirty (fuel : Nat) (rt : Runtime) (root : Nat) : Runtime :=
  (markDescendantsDirty fuel rt root).getD rt

/-- Command type for the single fuel-indexed interpreter: one constructor per
(mutually recursive) operation of the scheduler.  A single structurally
recursive function keeps every operation kernel-computable. -/
inductive Cmd where
  | uin (id : Nat)
  | pull (id : Nat) (srcs : List Nat)
  | upd (id : Nat)
  | compRun (id : Nat) (comp : List Action)
  | acts (l : List Action)
  | act1 (a : Action)
  | runEff
  | drain (es : List Nat)
  | cleanup (id : Nat)
  | cleanupL (cs : List Nat)

/-- The interpreter for the recursive part of the scheduler.  Each command
embeds one function of `runtime.rs` (dispatched below; the named wrappers
`updateIfNecessary`, `update`, `runEffects`, `cleanupChildren`, … restate each
case).  Every recursive call spends one unit of fuel; running out of fuel
returns the state unchanged. -/
def interp : Nat → Runtime → Cmd → Runtime
  | 0, rt, _ => rt
  | fuel + 1, rt, cmd =>
    match cmd with
    | Cmd.uin id =>
      -- `Runtime::update_if_necessary`: pull through the recorded sources
      -- while the node is at Check; if the node ends at Dirty or above,
      -- dispose its owned children and update it; finally mark it Clean.
      let rt1 := if nodeState rt id = NodeState.Check then
          match rt.nodeSources id with
          | none => rt
          | some srcs => interp fuel rt (Cmd.pull id srcs)
        else rt
      let rt2 := if (nodeState rt1 id).geDirty then
          interp fuel (interp fuel rt1 (Cmd.cleanup id)) (Cmd.upd id)
        else rt1
      markClean rt2 id
    | Cmd.pull id srcs =>
      -- the source loop of `update_if_necessary` (over a snapshot `Vec`)
      match srcs with
      | [] => rt
      | s :: rest =>
        let rt1 := interp fuel rt (Cmd.uin s)
        if (nodeState rt1 id).geDirty then rt1 else interp fuel rt1 (Cmd.pull id rest)
    | Cmd.upd id =>
      -- `Runtime::update`: a signal always counts as changed; an effect with
      -- a value runs its computation under `with_observer` (the computation
      -- itself always returns `true`, see `EffectComputation::run`); on
      -- "changed" every live direct subscriber is escalated to Dirty.
      match rt.nodes id with
      | none => rt
      | some node =>
        match node.kind with
        | NodeKind.signal => markSubscribersDirty rt id
        | NodeKind.effect comp =>
          match node.value with
          | none => rt
          | some _v =>
            match withObserver rt id (fun r =>
                (some true, interp fuel r (Cmd.compRun id comp))) with
            | (some true, rt1) => markSubscribersDirty rt1 id
            | (some false, rt1) => rt1
            | (none, rt1) => rt1
    | Cmd.compRun id comp =>
      -- `EffectComputation::run` from `node.rs`: invoke the closure (the
      -- action list) and store the new output into the node's value cell
      -- (the closures of the scenarios return a unit-like constant, modelled
      -- as `0`); the `true` it reports is inlined at the call site above.
      setNodeValue (interp fuel rt (Cmd.acts comp)) id (some 0)
    | Cmd.acts l =>
      match l with
      | [] => rt
      | a :: rest => interp fuel (interp fuel rt (Cmd.act1 a)) (Cmd.acts rest)
    | Cmd.act1 a =>
      -- one closure action.  `getSig` is `Signal::get` (track, then read and
      -- log); `getSigUntracked` skips the track; `setSig` is `Signal::set`
      -- (write the cell, `mark_descendants_dirty`, `run_effects`);
      -- `mkSignal` / `mkEffect` are `create_signal` / `Effect::new` under
      -- the current scope.  An absent value on a read or write models the
      -- `.unwrap()` panic in `signal.rs`, not exercised by any scenario.
      match a with
      | Action.getSig s =>
        let rt1 := track rt s
        match withValue rt1 s with
        | some v => { rt1 with log := rt1.log ++ [v] }
        | none => rt1
      | Action.getSigUntracked s =>
        match withValue rt s with
        | some v => { rt with log := rt.log ++ [v] }
        | none => rt
      | Action.setSig s v =>
        match withValue rt s with
        | none => rt
        | some _old =>
          let rt1 := setNodeValue rt s (some v)
          let rt2 := markDirty fuel rt1 s
          interp fuel rt2 Cmd.runEff
      | Action.mkSignal v => (createSignalR rt v).2
      | Action.mkEffect body =>
        let p := createEffectR rt 0 body
        interp fuel p.2 (Cmd.uin p.1)
    | Cmd.runEff =>
      -- `Runtime::run_effects`: swap the pending queue out, drain the
      -- snapshot, and finally store the drained-out (hence empty) buffer
      -- back as the pending queue.
      let effects := rt.pendingEffects
      let rt1 := { rt with pendingEffects := [] }
      let rt2 := interp fuel rt1 (Cmd.drain effects)
      { rt2 with pendingEffects := [] }
    | Cmd.drain es =>
      match es with
      | [] => rt
      | e :: rest => interp fuel (interp fuel rt (Cmd.uin e)) (Cmd.drain rest)
    | Cmd.cleanup id =>
      -- `Runtime::cleanup_children`: take (and drop) the children entry of
      -- `id` and dispose each child in turn.
      match rt.nodeChildren id with
      | none => rt
      | some children =>
        interp fuel { rt with nodeChildren := updf rt.nodeChildren id none }
          (Cmd.cleanupL children)
    | Cmd.cleanupL cs =>
      -- the child loop of `cleanup_children`: recursively dispose the
      -- child's own subtree, then purge the child itself.
      match cs with
      | [] => rt
      | c :: rest =>
        interp fuel (purgeChild (interp fuel rt (Cmd.cleanup c)) c) (Cmd.cleanupL rest)

/-- `Runtime::update_if_necessary`. -/
def updateIfNecessary (fuel : Nat) (rt : Runtime) (id : Nat) : Runtime :=
  interp fuel rt (Cmd.uin id)

/-- `Runtime::update`. -/
def update (fuel : Nat) (rt : Runtime) (id : Nat) : Runtime :=
  interp fuel rt (Cmd.upd id)

/-- `EffectComputation::run` from `node.rs`: run the closure, store the new
output, and unconditionally report `true` ("changed"). -/
def effectCompRun (fuel : Nat) (rt : Runtime) (id : Nat) (comp : List Action) :
    Bool × Runtime :=
  (true, interp fuel rt (Cmd.compRun id comp))

/-- `Runtime::run_effects`. -/
def runEffects (fuel : Nat) (rt : Runtime) : Runtime :=
  interp fuel rt Cmd.runEff

/-- The drain loop of `run_effects` over a snapshot list. -/
def drainEffects (fuel : Nat) (rt : Runtime) (es : List Nat) : Runtime :=
  interp fuel rt (Cmd.drain es)

/-- `Runtime::cleanup_children`. -/
def cleanupChildren (fuel : Nat) (rt : Runtime) (id : Nat) : Runtime :=
  interp fuel rt (Cmd.cleanup id)

/-- `Signal::new` / `create_signal` at top level. -/
def signalNew (rt : Runtime) (v : Int) : Nat × Runtime :=
  createSignalR rt v

/-- `Effect::new` / `create_effect`: create the effect node (Dirty) and run it
once immediately via `update_if_necessary`. -/
def effectNew (fuel : Nat) (rt : Runtime) (body : List Action) : Nat × Runtime :=
  let p := createEffectR rt 0 body
  (p.1, updateIfNecessary fuel p.2 p.1)

/-- `Signal::get`: track, then read (`get_untracked`).  A `none` first
component models the `.unwrap()` panic on an absent value. -/
def signalGet (rt : Runtime) (s : Nat) : Option Int × Runtime :=
  let rt1 := track rt s
  (withValue rt1 s, rt1)

/-- `Signal::get_untracked`. -/
def signalGetUntracked (rt : Runtime) (s : Nat) : Option Int × Runtime :=
  (withValue rt s, rt)

/-- `Signal::with`: note that the source body is identical to
`with_untracked` — it reads through `with_value` without tracking. -/
def signalWith (rt : Runtime) (s : Nat) : Option Int × Runtime :=
  (withValue rt s, rt)

/-- `Signal::with_untracked`. -/
def signalWithUntracked (rt : Runtime) (s : Nat) : Option Int × Runtime :=
  (withValue rt s, rt)

/-- `Signal::set` (i.e. `Signal::update` with `mem::replace`): write the new
value, mark descendants dirty, flush the pending effects, and return the
previous value.  A `none` first component models the `.unwrap()` panic on an
absent value; in that case nothing is marked or flushed. -/
def signalSet (fuel : Nat) (rt : Runtime) (s : Nat) (v : Int) : Option Int × Runtime :=
  match withValue rt s with
  | none => (none, rt)
  | some old =>
    let rt1 := setNodeValue rt s (some v)
    let rt2 := markDirty fuel rt1 s
    (some old, runEffects fuel rt2)

/-- `Signal::update` with a read-modify-write closure `f` (the closure's
return value is modelled as the old value, as in `set`). -/
def signalUpdate (fuel : Nat) (rt : Runtime) (s : Nat) (f : Int → Int) : Option Int × Runtime :=
  match withValue rt s with
  | none => (none, rt)
  | some old =>
    let rt1 := setNodeValue rt s (some (f old))
    let rt2 := markDirty fuel rt1 s
    (some old, runEffects fuel rt2)

/-- `Signal::set_untracked`: write without marking or flushing. -/
def signalSetUntracked (rt : Runtime) (s : Nat) (v : Int) : Option Int × Runtime :=
  match withValue rt s with
  | none => (none, rt)
  | some old => (some old, setNodeValue rt s (some v))

/-- `Signal::update_untracked`. -/
def signalUpdateUntracked (rt : Runtime) (s : Nat) (f : Int → Int) : Option Int × Runtime :=
  match withValue rt s with
  | none => (none, rt)
  | some old => (some old, setNodeValue rt s (some (f old)))

/-! ## Scenario states used by the claims -/

/-- C1 baseline scenario, step 1: `create_signal(0)` (id 0) in a fresh runtime. -/
def c1st1 : Runtime := (signalNew freshRuntime 0).2

/-- C1, step 2: `create_effect` whose body logs `s.get()` (id 1). -/
def c1st2 : Runtime := (effectNew 50 c1st1 [Action.getSig 0]).2

/-- C1, step 3: `s.set(1)`. -/
def c1st3 : Runtime := (signalSet 50 c1st2 0 1).2

/-- C1, step 4: `s.set(2)`. -/
def c1st4 : Runtime := (signalSet 50 c1st3 0 2).2

/-- C2 scenario: a signal `t` (id 0) in a fresh runtime. -/
def c2st1 : Runtime := (signalNew freshRuntime 0).2

/-- C2 scenario: after creating (and immediately running) effect A (id 1),
whose body creates a nested effect B (id 2) that would read and log `t`. -/
def c2st2 : Runtime := (effectNew 60 c2st1 [Action.mkEffect [Action.getSig 0]]).2

/-- C3 scenario: signals s1 (id 0) and s2 (id 1); effect E2 (id 2) logging s2;
effect E1 (id 3) logging s1 and then writing s2 (which schedules E2). -/
def c3st : Runtime :=
  (effectNew 80 (effectNew 80 ((signalNew ((signalNew freshRuntime 0).2) 0).2)
    [Action.getSig 1]).2 [Action.getSig 0, Action.setSig 1 10]).2

/-- C3: the state just before the flush triggered by `s1.set(5)`: the new
value has been written and `mark_descendants_dirty` has queued E1 (id 3) —
and only E1. -/
def c3pre : Runtime := markDirty 80 (setNodeValue c3st 0 (some 5)) 0

/-- C3: the state after the flush (`run_effects`). -/
def c3post : Runtime := runEffects 80 c3pre

/-- C5 scenario: effect A (id 0) creates signal s (id 1) in its body; marking
s dirty and pulling it through `update_if_necessary` then disposes it via
`cleanup_children` (because of the self-child bookkeeping, see C2), leaving
id 1 a dangling handle whose node has been removed from the store. -/
def c5dis : Runtime :=
  updateIfNecessary 40 (markDirty 40 (effectNew 40 freshRuntime [Action.mkSignal 7]).2 1) 1

/-- C9 scenario: a signal (id 0) read by an effect (id 1) only through
`with_untracked`. -/
def c9st : Runtime := (effectNew 30 (signalNew freshRuntime 0).2 [Action.getSigUntracked 0]).2

/-! ## Claims -/

/-- C1: baseline scenario.  From a fresh runtime, `create_signal(0)` then
`create_effect` logging `s.get()`: the effect node is created in state Dirty
and runs once immediately (log `[0]`); `s.set(1)` and `s.set(2)` each
synchronously run the effect exactly once before returning, so the log grows
by exactly one entry per write and ends at `[0, 1, 2]`. -/
theorem c1_baseline_scenario :
    ((createEffectR c1st1 0 [Action.getSig 0]).2.nodes 1).map Node.state =
      some NodeState.Dirty ∧
    c1st1.log = [] ∧ c1st2.log = [0] ∧ c1st3.log = [0, 1] ∧ c1st4.log = [0, 1, 2] :=
  ⟨rfl, rfl, rfl, rfl, rfl⟩

/-- C2: the ownership bookkeeping of `Runtime::create_node` is broken.  With
an active scope the new node's parent is recorded correctly, but the node is
inserted into its *own* children set (`node_children.entry(id)` instead of the
scope's), so: a node created under scope 5 ends up with `node_children[id] =
{id}` and scope 5 has no children entry; consequently in the nesting scenario
the inner effect B (id 2) disposes *itself* during its very first
`update_if_necessary` (its computation never runs: the log stays empty and
node 2 is gone from the store), and the owner A (id 1) has no children record
at all, so A's re-run would dispose nothing. -/
theorem c2_ownership_bug :
    ((createNode { freshRuntime with scope := some 5, nextId := 1 }
        { value := some 0, state := NodeState.Clean, kind := NodeKind.signal }).2.nodeParents 1 =
      some 5) ∧
    ((createNode { freshRuntime with scope := some 5, nextId := 1 }
        { value := some 0, state := NodeState.Clean, kind := NodeKind.signal }).2.nodeChildren 1 =
      some [1]) ∧
    ((createNode { freshRuntime with scope := some 5, nextId := 1 }
        { value := some 0, state := NodeState.Clean, kind := NodeKind.signal }).2.nodeChildren 5 =
      none) ∧
    c2st2.nextId = 3 ∧ c2st2.nodes 2 = none ∧ c2st2.nodeChildren 1 = none ∧ c2st2.log = [] :=
  ⟨rfl, rfl, rfl, rfl, rfl, rfl, rfl⟩

/-- C3 counterexample: ids scheduled into the pending queue during the drain
are *not* preserved in the queue after `run_effects` returns, and are *not*
left for a later flush.  In the concrete scenario the queue before the flush
is exactly `[3]` (E1); during the drain E1's write to s2 schedules E2 (id 2),
but after `run_effects` returns the queue is empty and E2's read (the trailing
`10`) has already happened inside the same flush — E2 was processed by the
nested `run_effects` of the signal write, and the final
`*pending_effects = effects` stores back the drained-out (empty) buffer. -/
theorem c3_pending_not_preserved :
    c3st.log = [0, 0, 10] ∧ c3st.pendingEffects = [] ∧
    c3pre.pendingEffects = [3] ∧
    c3post.pendingEffects = [] ∧ c3post.log = [0, 0, 10, 5, 10] :=
  ⟨rfl, rfl, rfl, rfl, rfl⟩

/-- C3 amended: `run_effects` swaps the queue out and calls
`update_if_necessary` on exactly the snapshot taken at entry; effects
scheduled during the drain go into the fresh queue (and are typically flushed
reentrantly by the nested `run_effects` every signal write performs), and on
return `run_effects` unconditionally stores the emptied snapshot buffer back,
so the pending queue is empty afterwards — nothing scheduled during the drain
survives in it. -/
theorem c3_run_effects_snapshot (fuel : Nat) (rt : Runtime) :
    (runEffects (fuel + 1) rt).pendingEffects = [] ∧
    runEffects (fuel + 1) rt =
      { drainEffects fuel { rt with pendingEffects := [] } rt.pendingEffects with
          pendingEffects := [] } :=
  ⟨rfl, rfl⟩

/-- C5: evaluation of the stale-handle behaviour at a disposed id.  The
runtime-level read (`with_value`, modelled from the spec) yields "absent" and
the writes leave the state unchanged, but every public `Signal` method in
`signal.rs` ends in `.unwrap()` on that absent result — the `none` first
components below are exactly the values those `.unwrap()` calls panic on, so
reads and writes on a disposed handle fault instead of silently no-opping. -/
theorem c5_stale_handle_eval :
    c5dis.nodes 1 = none ∧
    (signalWith c5dis 1).1 = none ∧
    (signalWithUntracked c5dis 1).1 = none ∧
    (signalGetUntracked c5dis 1).1 = none ∧
    signalGet c5dis 1 = (none, c5dis) ∧
    signalSet 40 c5dis 1 5 = (none, c5dis) ∧
    signalSetUntracked c5dis 1 5 = (none, c5dis) ∧
    signalUpdate 40 c5dis 1 (fun v => v + 1) = (none, c5dis) ∧
    signalUpdateUntracked c5dis 1 (fun v => v + 1) = (none, c5dis) :=
  ⟨rfl, rfl, rfl, rfl, rfl, rfl, rfl, rfl, rfl⟩

/-- C8 counterexample: `with_observer` does *not* restore the previous
observer/scope pair when the body exits abnormally — the source has no unwind
guard, so after a panicking body (modelled by a `none` result) the runtime is
left with the installed observer, not the saved one (`none` in a fresh
runtime). -/
theorem c8_no_restore_on_panic :
    freshRuntime.observer = none ∧ freshRuntime.scope = none ∧
    (withObserver freshRuntime 0 (fun r => ((none : Option Unit), r))).2.observer = some 0 ∧
    (withObserver freshRuntime 0 (fun r => ((none : Option Unit), r))).2.scope = some 0 :=
  ⟨rfl, rfl, rfl, rfl⟩

/-- C8 amended: `with_observer(observer, body)` saves the previous
observer/scope pair, installs `observer` as both for the duration of `body`,
and — on *normal* completion of `body` — returns `body`'s result with exactly
`body`'s final state except that observer and scope are restored to their
saved values (so all other fields are whatever `body` made them, and nesting
works); on abnormal exit the restoration is skipped. -/
theorem c8_with_observer_restores {α : Type} (rt : Runtime) (obs : Nat)
    (body : Runtime → Option α × Runtime) (ret : α) (rt2 : Runtime)
    (h : body { rt with observer := some obs, scope := some obs } = (some ret, rt2)) :
    withObserver rt obs body =
      (some ret, { rt2 with observer := rt.observer, scope := rt.scope }) := by
  have e : withObserver rt obs body =
      match body { rt with observer := some obs, scope := some obs } with
      | (some r, rt3) => (some r, { rt3 with observer := rt.observer, scope := rt.scope })
      | (none, rt3) => (none, rt3) := rfl
  rw [e, h]

/-- C8 witness: the amended theorem applied to a concrete identity-like body
in a fresh runtime. -/
theorem c8_with_observer_restores_witness :
    withObserver freshRuntime 0 (fun r => (some (3 : Int), r)) =
      (some 3, { { freshRuntime with observer := some 0, scope := some 0 } with
                   observer := freshRuntime.observer, scope := freshRuntime.scope }) :=
  c8_with_observer_restores freshRuntime 0 (fun r => (some (3 : Int), r)) 3
    { freshRuntime with observer := some 0, scope := some 0 } rfl

theorem updf_same {α : Type} (m : Nat → α) (k : Nat) (v : α) : updf m k v k = v := by
  simp [updf]

theorem updf_ne {α : Type} (m : Nat → α) (k : Nat) (v : α) {x : Nat} (h : x ≠ k) :
    updf m k v x = m x := by
  simp [updf, h]

theorem setNodeState_nodeSubscribers (rt : Runtime) (id : Nat) (s : NodeState) :
    (setNodeState rt id s).nodeSubscribers = rt.nodeSubscribers := by
  unfold setNodeState; cases rt.nodes id <;> rfl

theorem setNodeState_nodeSources (rt : Runtime) (id : Nat) (s : NodeState) :
    (setNodeState rt id s).nodeSources = rt.nodeSources := by
  unfold setNodeState; cases rt.nodes id <;> rfl

theorem setNodeValue_nodeSubscribers (rt : Runtime) (id : Nat) (v : Option Int) :
    (setNodeValue rt id v).nodeSubscribers = rt.nodeSubscribers := by
  unfold setNodeValue; cases rt.nodes id <;> rfl

theorem setNodeValue_nodeSources (rt : Runtime) (id : Nat) (v : Option Int) :
    (setNodeValue rt id v).nodeSources = rt.nodeSources := by
  unfold setNodeValue; cases rt.nodes id <;> rfl

theorem setNodeState_nodes_other (rt : Runtime) (id : Nat) (s : NodeState) {x : Nat}
    (h : x ≠ id) : (setNodeState rt id s).nodes x = rt.nodes x := by
  unfold setNodeState
  cases rt.nodes id
  · rfl
  · exact updf_ne rt.nodes id _ h

/-- Folding Dirty-escalation over a list does not touch ids outside the list. -/
theorem foldlDirty_nodes_notmem :
    ∀ (l : List Nat) (rt : Runtime) {t : Nat}, t ∉ l →
      ((l.foldl (fun r c => setNodeState r c NodeState.Dirty) rt).nodes t = rt.nodes t)
  | [], _, _, _ => rfl
  | c :: cs, rt, t, h => by
    have h1 : t ∉ cs := fun hm => h (List.mem_cons_of_mem c hm)
    have h2 : t ≠ c := fun he => h (he ▸ List.mem_cons_self c cs)
    calc ((c :: cs).foldl (fun r c => setNodeState r c NodeState.Dirty) rt).nodes t
        = ((cs.foldl (fun r c => setNodeState r c NodeState.Dirty)
            (setNodeState rt c NodeState.Dirty)).nodes t) := rfl
      _ = (setNodeState rt c NodeState.Dirty).nodes t := foldlDirty_nodes_notmem cs _ h1
      _ = rt.nodes t := setNodeState_nodes_other rt c NodeState.Dirty h2

/-- Every live member of the folded list ends up Dirty. -/
theorem foldlDirty_marks :
    ∀ (l : List Nat) (rt : Runtime) {s : Nat}, s ∈ l →
      ∀ nd, (l.foldl (fun r c => setNodeState r c NodeState.Dirty) rt).nodes s = some nd →
        nd.state = NodeState.Dirty := by
  intro l
  induction l with
  | nil => intro rt s hs; cases hs
  | cons c cs ih =>
    intro rt s hs nd h
    by_cases hmem : s ∈ cs
    · exact ih (setNodeState rt c NodeState.Dirty) hmem nd h
    · have hsc : s = c := by
        rcases List.mem_cons.mp hs with h' | h'
        · exact h'
        · exact absurd h' hmem
      subst hsc
      have h' : (setNodeState rt s NodeState.Dirty).nodes s = some nd := by
        rw [← foldlDirty_nodes_notmem cs (setNodeState rt s NodeState.Dirty) hmem]
        exact h
      cases hn : rt.nodes s with
      | none =>
        simp only [setNodeState, hn] at h'
        cases h'
      | some node =>
        simp only [setNodeState, hn, updf_same] at h'
        have hEq := Option.some.inj h'
        rw [← hEq]

theorem markSubscribersDirty_nodeSubscribers (rt : Runtime) (id : Nat) :
    (markSubscribersDirty rt id).nodeSubscribers = rt.nodeSubscribers := by
  unfold markSubscribersDirty
  cases rt.nodeSubscribers id with
  | none => rfl
  | some subs =>
    induction subs generalizing rt with
    | nil => rfl
    | cons c cs ih =>
      calc ((c :: cs).foldl (fun r c => setNodeState r c NodeState.Dirty) rt).nodeSubscribers
          = ((cs.foldl (fun r c => setNodeState r c NodeState.Dirty)
              (setNodeState rt c NodeState.Dirty)).nodeSubscribers) := rfl
        _ = (setNodeState rt c NodeState.Dirty).nodeSubscribers := ih _
        _ = rt.nodeSubscribers := setNodeState_nodeSubscribers rt c NodeState.Dirty

/-- Every live direct subscriber is Dirty after `markSubscribersDirty`. -/
theorem markSubscribersDirty_marks (rt : Runtime) (id : Nat) :
    ∀ s ∈ ((markSubscribersDirty rt id).nodeSubscribers id).getD [],
      ∀ nd, (markSubscribersDirty rt id).nodes s = some nd → nd.state = NodeState.Dirty := by
  intro s hs nd h
  rw [markSubscribersDirty_nodeSubscribers] at hs
  cases hsub : rt.nodeSubscribers id with
  | none => rw [hsub] at hs; cases hs
  | some subs =>
    rw [hsub] at hs
    have e : markSubscribersDirty rt id =
        subs.foldl (fun r c => setNodeState r c NodeState.Dirty) rt := by
      unfold markSubscribersDirty; rw [hsub]
    rw [e] at h
    exact foldlDirty_marks subs rt (by simpa using hs) nd h

/-- C9: untracked isolation.  The untracked read operations return the state
entirely unchanged, the untracked writes change only the node store (both
adjacency maps are untouched even when an observer is active), and in the
concrete scenario an effect that reads signal 0 only via `with_untracked` is
never registered in signal 0's subscriber set and is not re-run when signal 0
changes (the log still holds only the single entry of the initial run). -/
theorem c9_untracked_isolation :
    (∀ (rt : Runtime) (s : Nat), (signalGetUntracked rt s).2 = rt) ∧
    (∀ (rt : Runtime) (s : Nat), (signalWithUntracked rt s).2 = rt) ∧
    (∀ (rt : Runtime) (s : Nat) (v : Int),
      (signalSetUntracked rt s v).2.nodeSources = rt.nodeSources ∧
      (signalSetUntracked rt s v).2.nodeSubscribers = rt.nodeSubscribers) ∧
    (∀ (rt : Runtime) (s : Nat) (f : Int → Int),
      (signalUpdateUntracked rt s f).2.nodeSources = rt.nodeSources ∧
      (signalUpdateUntracked rt s f).2.nodeSubscribers = rt.nodeSubscribers) ∧
    c9st.nodeSubscribers 0 = none ∧ c9st.log = [0] ∧
    (signalSet 30 c9st 0 5).2.log = [0] := by
  refine ⟨fun rt s => rfl, fun rt s => rfl, ?_, ?_, rfl, rfl, rfl⟩
  · intro rt s v
    unfold signalSetUntracked
    cases withValue rt s
    · exact ⟨rfl, rfl⟩
    · exact ⟨setNodeValue_nodeSources rt s _, setNodeValue_nodeSubscribers rt s _⟩
  · intro rt s f
    unfold signalUpdateUntracked
    cases withValue rt s
    · exact ⟨rfl, rfl⟩
    · exact ⟨setNodeValue_nodeSources rt s _, setNodeValue_nodeSubscribers rt s _⟩

/-- C10: every effect created through the public API reports "changed" on
every run (`EffectComputation::run` returns `true` unconditionally after
storing the new output), so after any run of such an effect every live direct
subscriber has been escalated straight to state Dirty — the spec's
`If "changed"` condition is vacuously satisfied. -/
theorem c10_effect_always_changed (fuel : Nat) (rt : Runtime) (id : Nat)
    (v : Int) (st0 : NodeState) (comp : List Action)
    (h : rt.nodes id = some ⟨some v, st0, NodeKind.effect comp⟩) :
    (effectCompRun fuel rt id comp).1 = true ∧
    ∀ s ∈ ((update (fuel + 1) rt id).nodeSubscribers id).getD [],
      ∀ nd, (update (fuel + 1) rt id).nodes s = some nd → nd.state = NodeState.Dirty := by
  refine ⟨rfl, ?_⟩
  have e : update (fuel + 1) rt id =
      markSubscribersDirty
        { interp fuel { rt with observer := some id, scope := some id } (Cmd.compRun id comp)
            with observer := rt.observer, scope := rt.scope } id := by
    simp only [update, interp, h, withObserver]
  rw [e]
  exact markSubscribersDirty_marks _ id

/-- A concrete state for the C10 witness: effect 0 (empty body) with
subscriber 1 (a signal). -/
def c10rt : Runtime :=
  { freshRuntime with
    nodes := fun n =>
      if n = 0 then some ⟨some 0, NodeState.Clean, NodeKind.effect []⟩
      else if n = 1 then some ⟨some 0, NodeState.Clean, NodeKind.signal⟩
      else none,
    nodeSubscribers := fun n => if n = 0 then some [1] else none,
    nextId := 2 }

/-- C10 witness: the theorem applied at the concrete state `c10rt`. -/
theorem c10_effect_always_changed_witness :
    (effectCompRun 5 c10rt 0 []).1 = true ∧
    ∀ s ∈ ((update (5 + 1) c10rt 0).nodeSubscribers 0).getD [],
      ∀ nd, (update (5 + 1) c10rt 0).nodes s = some nd → nd.state = NodeState.Dirty :=
  c10_effect_always_changed 5 c10rt 0 0 NodeState.Clean [] rfl

/-! ## C4: the adjacency maps are exact mirrors of each other -/

/-- The mirror invariant of the two adjacency maps: `a` is recorded as a
source of `b` exactly when `b` is recorded as a subscriber of `a` (a missing
entry reads as the empty set). -/
def Mirror (rt : Runtime) : Prop :=
  ∀ a b : Nat, a ∈ ((rt.nodeSources b).getD []) ↔ b ∈ ((rt.nodeSubscribers a).getD [])

theorem mem_insertId {l : List Nat} {x y : Nat} : x ∈ insertId l y ↔ x ∈ l ∨ x = y := by
  unfold insertId
  by_cases h : y ∈ l
  · simp only [if_pos h]
    constructor
    · exact Or.inl
    · rintro (hx | rfl)
      · exact hx
      · exact h
  · simp [if_neg h]

theorem mem_removeId {l : List Nat} {x c : Nat} : x ∈ removeId l c ↔ x ∈ l ∧ x ≠ c := by
  simp [removeId]

theorem mem_removeFromMany {m : Nat → Option (List Nat)} {keys : List Nat} {c x a : Nat} :
    a ∈ (((removeFromMany m keys c) x).getD []) ↔
      a ∈ ((m x).getD []) ∧ (x ∈ keys → a ≠ c) := by
  unfold removeFromMany
  by_cases h : x ∈ keys
  · simp only [if_pos h]
    cases m x with
    | none => simp
    | some l => simp [mem_removeId, h]
  · simp [if_neg h, h]

/-- Any state transformation that leaves both adjacency maps unchanged
preserves the mirror invariant. -/
theorem mirror_of_maps_eq (rt rt' : Runtime)
    (hs : rt'.nodeSources = rt.nodeSources)
    (hb : rt'.nodeSubscribers = rt.nodeSubscribers) (hm : Mirror rt) : Mirror rt' := by
  intro a b
  rw [hs, hb]
  exact hm a b

theorem setNodeState_mirror (rt : Runtime) (id : Nat) (s : NodeState) (hm : Mirror rt) :
    Mirror (setNodeState rt id s) :=
  mirror_of_maps_eq _ _ (setNodeState_nodeSources rt id s)
    (setNodeState_nodeSubscribers rt id s) hm

theorem setNodeValue_mirror (rt : Runtime) (id : Nat) (v : Option Int) (hm : Mirror rt) :
    Mirror (setNodeValue rt id v) :=
  mirror_of_maps_eq _ _ (setNodeValue_nodeSources rt id v)
    (setNodeValue_nodeSubscribers rt id v) hm

theorem markSubscribersDirty_nodeSources (rt : Runtime) (id : Nat) :
    (markSubscribersDirty rt id).nodeSources = rt.nodeSources := by
  unfold markSubscribersDirty
  cases rt.nodeSubscribers id with
  | none => rfl
  | some subs =>
    induction subs generalizing rt with
    | nil => rfl
    | cons c cs ih =>
      calc ((c :: cs).foldl (fun r c => setNodeState r c NodeState.Dirty) rt).nodeSources
          = ((cs.foldl (fun r c => setNodeState r c NodeState.Dirty)
              (setNodeState rt c NodeState.Dirty)).nodeSources) := rfl
        _ = (setNodeState rt c NodeState.Dirty).nodeSources := ih _
        _ = rt.nodeSources := setNodeState_nodeSources rt c NodeState.Dirty

theorem markSubscribersDirty_mirror (rt : Runtime) (id : Nat) (hm : Mirror rt) :
    Mirror (markSubscribersDirty rt id) :=
  mirror_of_maps_eq _ _ (markSubscribersDirty_nodeSources rt id)
    (markSubscribersDirty_nodeSubscribers rt id) hm

/-- `Runtime::track` preserves the mirror invariant: it inserts the pair of
edges on both sides (idempotently), for arbitrary — also stale — ids. -/
theorem track_mirror (rt : Runtime) (id : Nat) (hm : Mirror rt) : Mirror (track rt id) := by
  unfold track
  cases rt.observer with
  | none => exact hm
  | some obs =>
    intro a b
    have base := hm a b
    show a ∈ ((updf rt.nodeSources obs (some (insertId ((rt.nodeSources obs).getD []) id)) b).getD [])
        ↔ b ∈ ((updf rt.nodeSubscribers id (some (insertId ((rt.nodeSubscribers id).getD []) obs)) a).getD [])
    unfold updf
    by_cases hb : b = obs <;> by_cases ha : a = id
    · simp [hb, ha, mem_insertId]
    · simp [hb, ha, mem_insertId]
      exact hm a obs
    · simp [hb, ha, mem_insertId]
      exact hm id b
    · simp [hb, ha]
      exact base

/-- Disposal of one node preserves the mirror invariant: the node's entries
are dropped from both maps and the node is purged from every partner set on
both sides. -/
theorem purgeChild_mirror (rt : Runtime) (c : Nat) (hm : Mirror rt) : Mirror (purgeChild rt c) := by
  intro a b
  show a ∈ ((updf (removeFromMany rt.nodeSources ((rt.nodeSubscribers c).getD []) c) c none b).getD [])
      ↔ b ∈ (((removeFromMany (updf rt.nodeSubscribers c none)
          ((removeFromMany rt.nodeSources ((rt.nodeSubscribers c).getD []) c c).getD []) c) a).getD [])
  rw [mem_removeFromMany]
  by_cases hb : b = c <;> by_cases ha : a = c
  · simp only [hb, ha]
    simp [updf]
  · simp only [hb]
    constructor
    · intro h
      simp [updf] at h
    · rintro ⟨h1, h2⟩
      exfalso
      rw [updf_ne rt.nodeSubscribers c none ha] at h1
      have hacs : a ∈ ((removeFromMany rt.nodeSources ((rt.nodeSubscribers c).getD []) c c).getD []) := by
        rw [mem_removeFromMany]
        exact ⟨(hm a c).mpr h1, fun _ => ha⟩
      exact (h2 hacs) rfl
  · simp only [ha]
    rw [updf_ne (removeFromMany rt.nodeSources ((rt.nodeSubscribers c).getD []) c) c none hb]
    rw [mem_removeFromMany]
    constructor
    · rintro ⟨h1, h2⟩
      exfalso
      by_cases hbs : b ∈ ((rt.nodeSubscribers c).getD [])
      · exact (h2 hbs) rfl
      · exact hbs ((hm c b).mp h1)
    · rintro ⟨h1, _⟩
      exfalso
      simp [updf] at h1
  · rw [updf_ne (removeFromMany rt.nodeSources ((rt.nodeSubscribers c).getD []) c) c none hb]
    rw [updf_ne rt.nodeSubscribers c none ha]
    rw [mem_removeFromMany]
    constructor
    · rintro ⟨h1, _⟩
      exact ⟨(hm a b).mp h1, fun _ => hb⟩
    · rintro ⟨h1, _⟩
      exact ⟨(hm a b).mpr h1, fun _ => ha⟩

theorem pushPending_mirror (rt : Runtime) (c : Nat) (hm : Mirror rt) :
    Mirror (pushPending rt c) :=
  mirror_of_maps_eq _ _ rfl rfl hm

theorem visitNode_nodeSources (rt : Runtime) (c : Nat) (node : Node) :
    (visitNode rt c node).nodeSources = rt.nodeSources := by
  unfold visitNode
  cases node.kind with
  | signal => split <;> simp [setNodeState_nodeSources]
  | effect comp =>
    repeat' split
    all_goals simp [pushPending, setNodeState_nodeSources]

theorem visitNode_nodeSubscribers (rt : Runtime) (c : Nat) (node : Node) :
    (visitNode rt c node).nodeSubscribers = rt.nodeSubscribers := by
  unfold visitNode
  cases node.kind with
  | signal => split <;> simp [setNodeState_nodeSubscribers]
  | effect comp =>
    repeat' split
    all_goals simp [pushPending, setNodeState_nodeSubscribers]

/-- The marking DFS never touches either adjacency map. -/
theorem markDfs_maps : ∀ (fuel : Nat) (rt : Runtime) (stack : List (List Nat)) (rt' : Runtime),
    markDfs fuel rt stack = some rt' →
    rt'.nodeSources = rt.nodeSources ∧ rt'.nodeSubscribers = rt.nodeSubscribers := by
  intro fuel
  induction fuel with
  | zero => intro rt stack rt' h; cases h
  | succ fuel ih =>
    intro rt stack rt' h
    match stack with
    | [] =>
      cases h
      exact ⟨rfl, rfl⟩
    | [] :: rest => exact ih rt rest rt' h
    | (c :: cs) :: rest =>
      simp only [markDfs] at h
      split at h
      · exact ih _ _ _ h
      · split at h
        · exact ih _ _ _ h
        · split at h
          · have := ih _ _ _ h
            rw [visitNode_nodeSources, visitNode_nodeSubscribers] at this
            exact this
          · have := ih _ _ _ h
            rw [visitNode_nodeSources, visitNode_nodeSubscribers] at this
            exact this

/-- `mark_descendants_dirty` (total wrapper) preserves the mirror invariant:
it only changes node states and the pending queue. -/
theorem markDirty_mirror (fuel : Nat) (rt : Runtime) (root : Nat) (hm : Mirror rt) :
    Mirror (markDirty fuel rt root) := by
  unfold markDirty markDescendantsDirty
  cases hnode : rt.nodes root with
  | none => exact hm
  | some node =>
    by_cases hdm : node.state = NodeState.DirtyMarked
    · simp only [if_pos hdm]
      exact hm
    · simp only [if_neg hdm]
      cases hch : rt.nodeSubscribers root with
      | none => exact setNodeState_mirror rt root NodeState.DirtyMarked hm
      | some children =>
        show Mirror ((markDfs fuel (setNodeState rt root NodeState.DirtyMarked) [children]).getD rt)
        cases h : markDfs fuel (setNodeState rt root NodeState.DirtyMarked) [children] with
        | none => exact hm
        | some rt2 =>
          simp only [Option.getD_some]
          have hmaps := markDfs_maps fuel _ _ _ h
          exact mirror_of_maps_eq rt rt2
            (hmaps.1.trans (setNodeState_nodeSources rt root NodeState.DirtyMarked))
            (hmaps.2.trans (setNodeState_nodeSubscribers rt root NodeState.DirtyMarked)) hm

/-- The pull phase of `update_if_necessary`: recurse into the snapshot of the
source set while the node is at Check. -/
def uinPull (fuel : Nat) (rt : Runtime) (id : Nat) : Runtime :=
  if nodeState rt id = NodeState.Check then
    match rt.nodeSources id with
    | none => rt
    | some srcs => interp fuel rt (Cmd.pull id srcs)
  else rt

/-- One unfolding of the `uin` command in terms of the named pull phase. -/
theorem uin_unfold (fuel : Nat) (rt : Runtime) (id : Nat) :
    interp (fuel + 1) rt (Cmd.uin id) =
      markClean (if (nodeState (uinPull fuel rt id) id).geDirty = true
        then interp fuel (interp fuel (uinPull fuel rt id) (Cmd.cleanup id)) (Cmd.upd id)
        else uinPull fuel rt id) id :=
  rfl

theorem markClean_mirror (rt : Runtime) (id : Nat) (hm : Mirror rt) :
    Mirror (markClean rt id) :=
  setNodeState_mirror rt id NodeState.Clean hm

theorem createNode_maps (rt : Runtime) (node : Node) :
    (createNode rt node).2.nodeSources = rt.nodeSources ∧
    (createNode rt node).2.nodeSubscribers = rt.nodeSubscribers := by
  unfold createNode
  cases rt.scope <;> exact ⟨rfl, rfl⟩

/-- Every command of the interpreter preserves the mirror invariant. -/
theorem interp_mirror : ∀ (fuel : Nat) (rt : Runtime) (cmd : Cmd),
    Mirror rt → Mirror (interp fuel rt cmd) := by
  intro fuel
  induction fuel with
  | zero => intro rt cmd hm; exact hm
  | succ fuel ih =>
    intro rt cmd hm
    cases cmd with
    | uin id =>
      rw [uin_unfold]
      have h1 : Mirror (uinPull fuel rt id) := by
        unfold uinPull
        split
        · cases rt.nodeSources id with
          | none => exact hm
          | some srcs => exact ih _ _ hm
        · exact hm
      apply markClean_mirror
      split
      · exact ih _ _ (ih _ _ h1)
      · exact h1
    | pull id srcs =>
      cases srcs with
      | nil => exact hm
      | cons s rest =>
        show Mirror (if _ then _ else _)
        split
        · exact ih _ _ hm
        · exact ih _ _ (ih _ _ hm)
    | upd id =>
      show Mirror (match rt.nodes id with
        | none => rt
        | some node =>
          match node.kind with
          | NodeKind.signal => markSubscribersDirty rt id
          | NodeKind.effect comp =>
            match node.value with
            | none => rt
            | some _v =>
              match withObserver rt id
                  (fun r => (some true, interp fuel r (Cmd.compRun id comp))) with
              | (some true, rt1) => markSubscribersDirty rt1 id
              | (some false, rt1) => rt1
              | (none, rt1) => rt1)
      cases hn : rt.nodes id with
      | none => exact hm
      | some node =>
        obtain ⟨value, state, kind⟩ := node
        cases kind with
        | signal => exact markSubscribersDirty_mirror rt id hm
        | effect comp =>
          cases value with
          | none => exact hm
          | some v =>
            refine markSubscribersDirty_mirror _ id ?_
            refine mirror_of_maps_eq
              (interp fuel { rt with observer := some id, scope := some id }
                (Cmd.compRun id comp)) _ rfl rfl ?_
            exact ih _ _ (mirror_of_maps_eq rt _ rfl rfl hm)
    | compRun id comp =>
      exact setNodeValue_mirror _ id (some 0) (ih _ _ hm)
    | acts l =>
      cases l with
      | nil => exact hm
      | cons a rest => exact ih _ _ (ih _ _ hm)
    | act1 a =>
      cases a with
      | getSig s =>
        show Mirror (match withValue (track rt s) s with
          | some v => _
          | none => track rt s)
        cases withValue (track rt s) s with
        | some v => exact mirror_of_maps_eq _ _ rfl rfl (track_mirror rt s hm)
        | none => exact track_mirror rt s hm
      | getSigUntracked s =>
        show Mirror (match withValue rt s with
          | some v => _
          | none => rt)
        cases withValue rt s with
        | some v => exact mirror_of_maps_eq _ _ rfl rfl hm
        | none => exact hm
      | setSig s v =>
        show Mirror (match withValue rt s with
          | none => rt
          | some _old => _)
        cases withValue rt s with
        | none => exact hm
        | some old =>
          exact ih _ _ (markDirty_mirror fuel _ s (setNodeValue_mirror rt s (some v) hm))
      | mkSignal v =>
        exact mirror_of_maps_eq _ _ (createNode_maps rt _).1 (createNode_maps rt _).2 hm
      | mkEffect body =>
        exact ih _ _ (mirror_of_maps_eq _ _ (createNode_maps rt _).1 (createNode_maps rt _).2 hm)
    | runEff =>
      exact mirror_of_maps_eq _ _ rfl rfl (ih _ _ (mirror_of_maps_eq _ _ rfl rfl hm))
    | drain es =>
      cases es with
      | nil => exact hm
      | cons e rest => exact ih _ _ (ih _ _ hm)
    | cleanup id =>
      show Mirror (match rt.nodeChildren id with
        | none => rt
        | some children => _)
      cases rt.nodeChildren id with
      | none => exact hm
      | some children => exact ih _ _ (mirror_of_maps_eq _ _ rfl rfl hm)
    | cleanupL cs =>
      cases cs with
      | nil => exact hm
      | cons c rest => exact ih _ _ (purgeChild_mirror _ c (ih _ _ hm))

/-- Runtime states reachable by sequences of the public operations (the
operations listed by the claim: node creation including the immediate first
run of an effect, tracked reads, signal writes both tracked and untracked,
plus the `pub` runtime methods `track`, `mark_descendants_dirty`,
`update_if_necessary` and `run_effects` invoked directly). -/
inductive Reachable : Runtime → Prop where
  | fresh : Reachable freshRuntime
  | createSignal (rt : Runtime) (v : Int) : Reachable rt → Reachable (createSignalR rt v).2
  | createEffect (fuel : Nat) (rt : Runtime) (body : List Action) :
      Reachable rt → Reachable (effectNew fuel rt body).2
  | getOp (rt : Runtime) (s : Nat) : Reachable rt → Reachable (signalGet rt s).2
  | setOp (fuel : Nat) (rt : Runtime) (s : Nat) (v : Int) :
      Reachable rt → Reachable (signalSet fuel rt s v).2
  | updateOp (fuel : Nat) (rt : Runtime) (s : Nat) (f : Int → Int) :
      Reachable rt → Reachable (signalUpdate fuel rt s f).2
  | setUntrackedOp (rt : Runtime) (s : Nat) (v : Int) :
      Reachable rt → Reachable (signalSetUntracked rt s v).2
  | updateUntrackedOp (rt : Runtime) (s : Nat) (f : Int → Int) :
      Reachable rt → Reachable (signalUpdateUntracked rt s f).2
  | trackOp (rt : Runtime) (s : Nat) : Reachable rt → Reachable (track rt s)
  | markOp (fuel : Nat) (rt : Runtime) (root : Nat) :
      Reachable rt → Reachable (markDirty fuel rt root)
  | uinOp (fuel : Nat) (rt : Runtime) (id : Nat) :
      Reachable rt → Reachable (updateIfNecessary fuel rt id)
  | runEffectsOp (fuel : Nat) (rt : Runtime) : Reachable rt → Reachable (runEffects fuel rt)

/-- Every public operation of the never-reused-id model preserves the exact
mirror of the adjacency maps, so the mirror holds in all states this model
reaches.  This says the invariant survives every execution in which no
disposed id is ever tracked under an active observer; the slot-versioned
embedding `V` below shows how a `track` on a stale id breaks it in the
source. -/
theorem reachable_mirror (rt : Runtime) (h : Reachable rt) : Mirror rt := by
  induction h with
  | fresh => intro a b; simp [freshRuntime]
  | createSignal rt v _ hm =>
    exact mirror_of_maps_eq _ _ (createNode_maps rt _).1 (createNode_maps rt _).2 hm
  | createEffect fuel rt body _ hm =>
    exact interp_mirror fuel _ _
      (mirror_of_maps_eq _ _ (createNode_maps rt _).1 (createNode_maps rt _).2 hm)
  | getOp rt s _ hm => exact track_mirror rt s hm
  | setOp fuel rt s v _ hm =>
    unfold signalSet
    cases withValue rt s with
    | none => exact hm
    | some old =>
      exact interp_mirror fuel _ _
        (markDirty_mirror fuel _ s (setNodeValue_mirror rt s (some v) hm))
  | updateOp fuel rt s f _ hm =>
    unfold signalUpdate
    cases withValue rt s with
    | none => exact hm
    | some old =>
      exact interp_mirror fuel _ _
        (markDirty_mirror fuel _ s (setNodeValue_mirror rt s _ hm))
  | setUntrackedOp rt s v _ hm =>
    unfold signalSetUntracked
    cases withValue rt s with
    | none => exact hm
    | some old => exact setNodeValue_mirror rt s _ hm
  | updateUntrackedOp rt s f _ hm =>
    unfold signalUpdateUntracked
    cases withValue rt s with
    | none => exact hm
    | some old => exact setNodeValue_mirror rt s _ hm
  | trackOp rt s _ hm => exact track_mirror rt s hm
  | markOp fuel rt root _ hm => exact markDirty_mirror fuel rt root hm
  | uinOp fuel rt id _ hm => exact interp_mirror fuel rt _ hm
  | runEffectsOp fuel rt _ hm => exact interp_mirror fuel rt _ hm

/-! ## C4: the slot-versioned embedding

The never-reused-`Nat` ids above cannot represent a stale id whose slot the
adjacency maps have since seen under a newer version — exactly the case in
which the `SecondaryMap::entry(...)` guards inside `Runtime::track` fail.
This namespace re-embeds the runtime with slotmap keys modelled as
(slot index, slot version) pairs: occupied versions are odd, removing a key
bumps its slot to the next (even) version and pushes the index on a LIFO
free list, and a reusing insert bumps it back to odd.  Versions are `Nat`
(the `u32` wraparound of the source is unreachable in the traces
considered).  Each map is a total function from slot index to slot, a slot
never touched reading as vacant at version 0 (the source's `resize_with`
padding built in). -/

namespace V

/-- A slotmap `NodeId`: slot index plus the slot version at creation. -/
structure Key where
  idx : Nat
  ver : Nat
deriving DecidableEq

/-- Defunctionalised effect computations over versioned ids; `trackSig s` is
a call of the public `Signal::track` on a (possibly stale) retained handle,
the remaining actions are as in `Action` above. -/
inductive Action where
  | getSig (s : Key)
  | getSigUntracked (s : Key)
  | setSig (s : Key) (v : Int)
  | mkSignal (v : Int)
  | mkEffect (body : List Action)
  | trackSig (s : Key)

/-- `NodeKind` over versioned ids. -/
inductive NodeKind where
  | signal
  | effect (comp : List Action)

/-- `Node` over versioned ids. -/
structure Node where
  value : Option Int
  state : NodeState
  kind : NodeKind

/-- One slot: its current version and its contents (`none` when vacant). -/
structure SSlot (α : Type) where
  ver : Nat
  val : Option α

/-- A `SecondaryMap`: slot contents indexed by slot index. -/
abbrev SecMap (α : Type) : Type := Nat → SSlot α

/-- The primary `SlotMap` arena: slot contents, the count of slots ever
created, and the LIFO free list of removed slot indices. -/
structure NodeMap where
  slots : SecMap Node
  len : Nat
  free : List Nat

/-- `SlotMap::get`: the stored node when the key's version matches its
slot's. -/
def getNode (nm : NodeMap) (k : Key) : Option Node :=
  if (nm.slots k.idx).ver = k.ver then (nm.slots k.idx).val else none

/-- `SlotMap::insert`: reuse the most recently freed slot, bumping its (even)
version back to odd, or occupy a fresh slot at version 1. -/
def insertNode (nm : NodeMap) (nd : Node) : Key × NodeMap :=
  match nm.free with
  | i :: rest =>
    (⟨i, (nm.slots i).ver + 1⟩,
      { nm with slots := updf nm.slots i { ver := (nm.slots i).ver + 1, val := some nd },
                free := rest })
  | [] =>
    (⟨nm.len, 1⟩,
      { nm with slots := updf nm.slots nm.len { ver := 1, val := some nd },
                len := nm.len + 1 })

/-- `SlotMap::remove`: bump the slot to the next (even) version and push the
index on the free list. -/
def removeNode (nm : NodeMap) (k : Key) : NodeMap :=
  if (nm.slots k.idx).ver = k.ver then
    { nm with slots := updf nm.slots k.idx { ver := k.ver + 1, val := none },
              free := k.idx :: nm.free }
  else nm

/-- `nodes.get_mut(k)` followed by writing back the whole node. -/
def updNode (nm : NodeMap) (k : Key) (nd : Node) : NodeMap :=
  if (nm.slots k.idx).ver = k.ver then
    { nm with slots := updf nm.slots k.idx { ver := k.ver, val := some nd } }
  else nm

/-- `SecondaryMap::get`. -/
def sGet {α : Type} (m : SecMap α) (k : Key) : Option α :=
  if (m k.idx).ver = k.ver then (m k.idx).val else none

/-- `sGet` with a missing set read as empty. -/
def sGetD (m : SecMap (List Key)) (k : Key) : List Key :=
  (sGet m k).getD []

/-- The `SecondaryMap::entry(...)` guard: an entry is handed out unless the
key is older than the version the map has recorded for its slot — a stale
key, whose slot the map has since removed or re-occupied under a newer id. -/
def sEntryOk {α : Type} (m : SecMap α) (k : Key) : Bool :=
  decide ((m k.idx).ver ≤ k.ver)

/-- Idempotent hash-set insertion over versioned ids. -/
def insertKey (l : List Key) (x : Key) : List Key :=
  if x ∈ l then l else l ++ [x]

/-- Hash-set removal over versioned ids. -/
def removeKey (l : List Key) (c : Key) : List Key :=
  l.filter (fun y => y ≠ c)

/-- `entry(k).or_default()` followed by a hash-set insert of `x`: take the
set held for `k` (fresh when the slot is vacant or at an older version),
insert `x`, and store it at `k`'s version.  The entry guard itself sits at
the call sites, as in the source's `if let Some(...) = map.entry(...)`. -/
def sEntryInsert (m : SecMap (List Key)) (k x : Key) : SecMap (List Key) :=
  updf m k.idx
    { ver := k.ver,
      val := some (insertKey
        (if (m k.idx).ver = k.ver then ((m k.idx).val).getD [] else []) x) }

/-- `SecondaryMap::insert` (used for `node_parents`): a no-op on a stale
key, otherwise the slot moves to the key's version with the new value. -/
def sInsert {α : Type} (m : SecMap α) (k : Key) (v : α) : SecMap α :=
  if sEntryOk m k then updf m k.idx { ver := k.ver, val := some v } else m

/-- `SecondaryMap::remove`: take the value and bump the slot version. -/
def sRemove {α : Type} (m : SecMap α) (k : Key) : Option α × SecMap α :=
  if (m k.idx).ver = k.ver then
    match (m k.idx).val with
    | some v => (some v, updf m k.idx { ver := k.ver + 1, val := none })
    | none => (none, m)
  else (none, m)

/-- `map.get(k)` followed by mutating the borrowed set in place. -/
def sModify (m : SecMap (List Key)) (k : Key) (f : List Key → List Key) :
    SecMap (List Key) :=
  if (m k.idx).ver = k.ver then
    match (m k.idx).val with
    | some l => updf m k.idx { ver := k.ver, val := some (f l) }
    | none => m
  else m

/-- The `Runtime` state over versioned ids (`log` as above). -/
structure Runtime where
  nodes : NodeMap
  nodeSubscribers : SecMap (List Key)
  nodeSources : SecMap (List Key)
  nodeParents : SecMap Key
  nodeChildren : SecMap (List Key)
  scope : Option Key
  observer : Option Key
  pendingEffects : List Key
  log : List Int

/-- `Runtime::default()` over versioned ids. -/
def freshRuntime : Runtime where
  nodes := { slots := fun _ => { ver := 0, val := none }, len := 0, free := [] }
  nodeSubscribers := fun _ => { ver := 0, val := none }
  nodeSources := fun _ => { ver := 0, val := none }
  nodeParents := fun _ => { ver := 0, val := none }
  nodeChildren := fun _ => { ver := 0, val := none }
  scope := none
  observer := none
  pendingEffects := []
  log := []

/-- `Runtime::get_node_value` composed with reading the cell. -/
def withValue (rt : Runtime) (id : Key) : Option Int :=
  (getNode rt.nodes id).bind (fun n => n.value)

/-- `Runtime::node_state`: a missing node reads as Clean. -/
def nodeState (rt : Runtime) (id : Key) : NodeState :=
  match getNode rt.nodes id with
  | some node => node.state
  | none => NodeState.Clean

/-- Set the state of a live node. -/
def setNodeState (rt : Runtime) (id : Key) (s : NodeState) : Runtime :=
  match getNode rt.nodes id with
  | some node => { rt with nodes := updNode rt.nodes id { node with state := s } }
  | none => rt

/-- Overwrite the value cell of a live node. -/
def setNodeValue (rt : Runtime) (id : Key) (v : Option Int) : Runtime :=
  match getNode rt.nodes id with
  | some node => { rt with nodes := updNode rt.nodes id { node with value := v } }
  | none => rt

/-- `Runtime::mark_clean`. -/
def markClean (rt : Runtime) (id : Key) : Runtime :=
  setNodeState rt id NodeState.Clean

/-- Append an effect to the pending queue. -/
def pushPending (rt : Runtime) (c : Key) : Runtime :=
  { rt with pendingEffects := rt.pendingEffects ++ [c] }

/-- `Runtime::create_node` over versioned ids: the id comes from the slotmap
(possibly reusing a freed slot under a bumped version); under a scope the
parent is recorded and — per the source bug kept faithfully — the new id is
inserted into its own guarded children entry (`node_children.entry(id)`),
not the scope's. -/
def createNode (rt : Runtime) (node : Node) : Key × Runtime :=
  let p := insertNode rt.nodes node
  let rt1 := { rt with nodes := p.2 }
  match rt1.scope with
  | none => (p.1, rt1)
  | some scope =>
    let rt2 := { rt1 with nodeParents := sInsert rt1.nodeParents p.1 scope }
    if sEntryOk rt2.nodeChildren p.1 then
      (p.1, { rt2 with nodeChildren := sEntryInsert rt2.nodeChildren p.1 p.1 })
    else (p.1, rt2)

/-- `Runtime::create_signal`. -/
def createSignalR (rt : Runtime) (v : Int) : Key × Runtime :=
  createNode rt { value := some v, state := NodeState.Clean, kind := NodeKind.signal }

/-- `Runtime::create_effect`. -/
def createEffectR (rt : Runtime) (v : Int) (comp : List Action) : Key × Runtime :=
  createNode rt { value := some v, state := NodeState.Dirty, kind := NodeKind.effect comp }

/-- `Runtime::track` with the source's two `SecondaryMap::entry` guards: a
side whose entry is refused (a stale key) is skipped, the other side is
still inserted. -/
def track (rt : Runtime) (id : Key) : Runtime :=
  match rt.observer with
  | none => rt
  | some obs =>
    let rt1 := if sEntryOk rt.nodeSubscribers id then
        { rt with nodeSubscribers := sEntryInsert rt.nodeSubscribers id obs }
      else rt
    if sEntryOk rt1.nodeSources obs then
      { rt1 with nodeSources := sEntryInsert rt1.nodeSources obs id }
    else rt1

/-- `Runtime::with_observer` over versioned ids (restore only on normal
return, as above). -/
def withObserver {α : Type} (rt : Runtime) (obs : Key)
    (body : Runtime → Option α × Runtime) : Option α × Runtime :=
  let prevObserver := rt.observer
  let prevScope := rt.scope
  let rt1 := { rt with observer := some obs, scope := some obs }
  match body rt1 with
  | (some ret, rt2) => (some ret, { rt2 with observer := prevObserver, scope := prevScope })
  | (none, rt2) => (none, rt2)

/-- The per-child disposal body of `cleanup_children` over versioned ids.
Both `SecondaryMap::remove` calls bump the removed entry's slot version —
the step that makes a later `entry` on the disposed id fail. -/
def purgeChild (rt : Runtime) (c : Key) : Runtime :=
  let p := sRemove rt.nodeSubscribers c
  let rt1 := { rt with
    nodeSubscribers := p.2,
    nodeSources :=
      (p.1.getD []).foldl (fun m s => sModify m s (fun l => removeKey l c)) rt.nodeSources }
  let q := sRemove rt1.nodeSources c
  let rt2 := { rt1 with
    nodeSources := q.2,
    nodeSubscribers :=
      (q.1.getD []).foldl (fun m s => sModify m s (fun l => removeKey l c)) rt1.nodeSubscribers }
  { rt2 with nodeParents := (sRemove rt2.nodeParents c).2,
             nodes := removeNode rt2.nodes c }

/-- Mark every live direct subscriber of `id` Dirty (the tail of
`Runtime::update`). -/
def markSubscribersDirty (rt : Runtime) (id : Key) : Runtime :=
  match sGet rt.nodeSubscribers id with
  | none => rt
  | some subs => subs.foldl (fun r c => setNodeState r c NodeState.Dirty) rt

/-- The marking step of a visited node, as `visitNode` above. -/
def visitNode (rt : Runtime) (c : Key) (node : Node) : Runtime :=
  let rt1 := if node.state = NodeState.Clean then setNodeState rt c NodeState.Check else rt
  match node.kind with
  | NodeKind.effect _ => if rt.observer = some c then rt1 else pushPending rt1 c
  | NodeKind.signal => rt1

/-- The depth-first traversal of `mark_descendants_dirty` over versioned
ids, as `markDfs` above. -/
def markDfs : Nat → Runtime → List (List Key) → Option Runtime
  | 0, _, _ => none
  | _ + 1, rt, [] => some rt
  | fuel + 1, rt, [] :: rest => markDfs fuel rt rest
  | fuel + 1, rt, (c :: cs) :: rest =>
    match getNode rt.nodes c with
    | none => markDfs fuel rt (cs :: rest)
    | some node =>
      if node.state = NodeState.Check ∨ node.state = NodeState.DirtyMarked then
        markDfs fuel rt (cs :: rest)
      else
        let rt2 := visitNode rt c node
        match sGet rt2.nodeSubscribers c with
        | none => markDfs fuel rt2 (cs :: rest)
        | some children => markDfs fuel rt2 (children :: cs :: rest)

/-- `Runtime::mark_descendants_dirty` over versioned ids. -/
def markDescendantsDirty (fuel : Nat) (rt : Runtime) (root : Key) : Option Runtime :=
  match getNode rt.nodes root with
  | none => some rt
  | some node =>
    if node.state = NodeState.DirtyMarked then some rt
    else
      match sGet rt.nodeSubscribers root with
      | none => some (setNodeState rt root NodeState.DirtyMarked)
      | some children =>
        markDfs fuel (setNodeState rt root NodeState.DirtyMarked) [children]

/-- Total wrapper, as `markDirty` above. -/
def markDirty (fuel : Nat) (rt : Runtime) (root : Key) : Runtime :=
  (markDescendantsDirty fuel rt root).getD rt

/-- Command type of the versioned interpreter, one constructor per operation
of the scheduler, as `Cmd` above. -/
inductive Cmd where
  | uin (id : Key)
  | pull (id : Key) (srcs : List Key)
  | upd (id : Key)
  | compRun (id : Key) (comp : List Action)
  | acts (l : List Action)
  | act1 (a : Action)
  | runEff
  | drain (es : List Key)
  | cleanup (id : Key)
  | cleanupL (cs : List Key)

/-- The fuel-indexed interpreter over versioned ids: case for case the
interpreter above, with the slotmap primitives in place of the
never-reused-id maps. -/
def interp : Nat → Runtime → Cmd → Runtime
  | 0, rt, _ => rt
  | fuel + 1, rt, cmd =>
    match cmd with
    | Cmd.uin id =>
      let rt1 := if nodeState rt id = NodeState.Check then
          match sGet rt.nodeSources id with
          | none => rt
          | some srcs => interp fuel rt (Cmd.pull id srcs)
        else rt
      let rt2 := if (nodeState rt1 id).geDirty then
          interp fuel (interp fuel rt1 (Cmd.cleanup id)) (Cmd.upd id)
        else rt1
      markClean rt2 id
    | Cmd.pull id srcs =>
      match srcs with
      | [] => rt
      | s :: rest =>
        let rt1 := interp fuel rt (Cmd.uin s)
        if (nodeState rt1 id).geDirty then rt1 else interp fuel rt1 (Cmd.pull id rest)
    | Cmd.upd id =>
      match getNode rt.nodes id with
      | none => rt
      | some node =>
        match node.kind with
        | NodeKind.signal => markSubscribersDirty rt id
        | NodeKind.effect comp =>
          match node.value with
          | none => rt
          | some _v =>
            match withObserver rt id (fun r =>
                (some true, interp fuel r (Cmd.compRun id comp))) with
            | (some true, rt1) => markSubscribersDirty rt1 id
            | (some false, rt1) => rt1
            | (none, rt1) => rt1
    | Cmd.compRun id comp =>
      setNodeValue (interp fuel rt (Cmd.acts comp)) id (some 0)
    | Cmd.acts l =>
      match l with
      | [] => rt
      | a :: rest => interp fuel (interp fuel rt (Cmd.act1 a)) (Cmd.acts rest)
    | Cmd.act1 a =>
      match a with
      | Action.getSig s =>
        let rt1 := track rt s
        match withValue rt1 s with
        | some v => { rt1 with log := rt1.log ++ [v] }
        | none => rt1
      | Action.getSigUntracked s =>
        match withValue rt s with
        | some v => { rt with log := rt.log ++ [v] }
        | none => rt
      | Action.setSig s v =>
        match withValue rt s with
        | none => rt
        | some _old =>
          let rt1 := setNodeValue rt s (some v)
          let rt2 := markDirty fuel rt1 s
          interp fuel rt2 Cmd.runEff
      | Action.mkSignal v => (createSignalR rt v).2
      | Action.mkEffect body =>
        let p := createEffectR rt 0 body
        interp fuel p.2 (Cmd.uin p.1)
      | Action.trackSig s => track rt s
    | Cmd.runEff =>
      let effects := rt.pendingEffects
      let rt1 := { rt with pendingEffects := [] }
      let rt2 := interp fuel rt1 (Cmd.drain effects)
      { rt2 with pendingEffects := [] }
    | Cmd.drain es =>
      match es with
      | [] => rt
      | e :: rest => interp fuel (interp fuel rt (Cmd.uin e)) (Cmd.drain rest)
    | Cmd.cleanup id =>
      match sRemove rt.nodeChildren id with
      | (none, _) => rt
      | (some children, m) =>
        interp fuel { rt with nodeChildren := m } (Cmd.cleanupL children)
    | Cmd.cleanupL cs =>
      match cs with
      | [] => rt
      | c :: rest =>
        interp fuel (purgeChild (interp fuel rt (Cmd.cleanup c)) c) (Cmd.cleanupL rest)

/-- `Runtime::update_if_necessary` over versioned ids. -/
def updateIfNecessary (fuel : Nat) (rt : Runtime) (id : Key) : Runtime :=
  interp fuel rt (Cmd.uin id)

/-- `Runtime::run_effects` over versioned ids. -/
def runEffects (fuel : Nat) (rt : Runtime) : Runtime :=
  interp fuel rt Cmd.runEff

/-- `Signal::new` / `create_signal` at top level. -/
def signalNew (rt : Runtime) (v : Int) : Key × Runtime :=
  createSignalR rt v

/-- `Effect::new` / `create_effect` over versioned ids. -/
def effectNew (fuel : Nat) (rt : Runtime) (body : List Action) : Key × Runtime :=
  let p := createEffectR rt 0 body
  (p.1, updateIfNecessary fuel p.2 p.1)

/-- `Signal::set` over versioned ids. -/
def signalSet (fuel : Nat) (rt : Runtime) (s : Key) (v : Int) : Option Int × Runtime :=
  match withValue rt s with
  | none => (none, rt)
  | some old =>
    let rt1 := setNodeValue rt s (some v)
    let rt2 := markDirty fuel rt1 s
    (some old, runEffects fuel rt2)

/-- The exact-mirror property over versioned ids: `a` is recorded as a
source of `b` exactly when `b` is recorded as a subscriber of `a`. -/
def Mirror (rt : Runtime) : Prop :=
  ∀ a b : Key, a ∈ sGetD rt.nodeSources b ↔ b ∈ sGetD rt.nodeSubscribers a

/-- The slot a key addresses is current for that key: vacant and not newer
than the key, or held at exactly the key's version.  The `entry` guard then
succeeds and its `or_default` displaces no other key's live set. -/
def rowCurrent {α : Type} (m : SecMap α) (k : Key) : Bool :=
  (decide ((m k.idx).ver = k.ver)) ||
    ((m k.idx).val.isNone && decide ((m k.idx).ver ≤ k.ver))

theorem mem_insertKey {l : List Key} {x y : Key} : x ∈ insertKey l y ↔ x ∈ l ∨ x = y := by
  unfold insertKey
  by_cases h : y ∈ l
  · simp only [if_pos h]
    constructor
    · exact Or.inl
    · rintro (hx | rfl)
      · exact hx
      · exact h
  · simp [if_neg h]

theorem entryOk_of_rowCurrent {α : Type} (m : SecMap α) (k : Key)
    (h : rowCurrent m k = true) : sEntryOk m k = true := by
  unfold rowCurrent at h
  unfold sEntryOk
  simp only [Bool.or_eq_true, Bool.and_eq_true, decide_eq_true_eq] at h
  simp only [decide_eq_true_eq]
  rcases h with h | ⟨_, h⟩
  · omega
  · exact h

theorem sGetD_entryInsert_self (m : SecMap (List Key)) (k x : Key)
    (h : rowCurrent m k = true) :
    sGetD (sEntryInsert m k x) k = insertKey (sGetD m k) x := by
  simp only [rowCurrent, Bool.or_eq_true, Bool.and_eq_true, decide_eq_true_eq,
    Option.isNone_iff_eq_none] at h
  unfold sGetD sGet sEntryInsert
  rw [updf_same]
  by_cases hv : (m k.idx).ver = k.ver
  · simp [hv]
  · rcases h with h | ⟨hn, _⟩
    · exact absurd h hv
    · simp [hv, hn]

theorem sGetD_entryInsert_other (m : SecMap (List Key)) (k x a : Key)
    (hne : a ≠ k) (h : rowCurrent m k = true) :
    sGetD (sEntryInsert m k x) a = sGetD m a := by
  simp only [rowCurrent, Bool.or_eq_true, Bool.and_eq_true, decide_eq_true_eq,
    Option.isNone_iff_eq_none] at h
  unfold sGetD sGet sEntryInsert
  by_cases hidx : a.idx = k.idx
  · have hver : ¬ a.ver = k.ver := by
      intro hv
      apply hne
      cases a
      cases k
      simp_all
    have hver2 : ¬ k.ver = a.ver := fun hh => hver hh.symm
    rw [hidx, updf_same]
    rcases h with hcur | ⟨hn, _⟩
    · have h1 : ¬ ((m k.idx).ver = a.ver) := by
        rw [hcur]
        exact hver2
      simp [hver2, h1]
    · simp [hver2, hn]
  · rw [updf_ne _ _ _ hidx]

theorem mem_entryInsert_self (m : SecMap (List Key)) (k x : Key) :
    x ∈ sGetD (sEntryInsert m k x) k := by
  unfold sGetD sGet sEntryInsert
  rw [updf_same]
  simp [mem_insertKey]

end V

/-- C4 trace, step 1: `create_effect` A (slot 0, version 1) whose body
creates signal s (slot 1, version 1); by the `create_node` bug s is recorded
as its own child (with A as its parent). -/
def c4v1 : V.Runtime := (V.effectNew 40 V.freshRuntime [V.Action.mkSignal 10]).2

/-- C4 trace, step 2: `s.set(11)`: s has no subscribers, so the write only
leaves s DirtyMarked. -/
def c4v2 : V.Runtime := (V.signalSet 40 c4v1 ⟨1, 1⟩ 11).2

/-- C4 trace, step 3: public `update_if_necessary(s)`: s is ≥ Dirty, so
`cleanup_children(s)` disposes s itself (the self-child), freeing slot 1. -/
def c4v3 : V.Runtime := V.updateIfNecessary 40 c4v2 ⟨1, 1⟩

/-- C4 trace, step 4: `create_signal(20)` reuses freed slot 1: the new
signal t is slot 1 at version 3. -/
def c4v4 : V.Runtime := (V.signalNew c4v3 20).2

/-- C4 trace, step 5: a new effect E (slot 2, version 1) reads t — tracking
it re-occupies subscriber slot 1 at version 3 — and then calls the public
`Signal::track` on the retained stale handle s (slot 1, version 1). -/
def c4v5 : V.Runtime :=
  (V.effectNew 40 c4v4 [V.Action.getSig ⟨1, 3⟩, V.Action.trackSig ⟨1, 1⟩]).2

/-- C4 counterexample: the exact mirror of the adjacency maps is not an
invariant of all publicly reachable states, and `track` does not preserve it
when an endpoint's id is stale.  After the public trace `c4v1`–`c4v5`
(create effect, write, public `update_if_necessary`, create signal, create
effect), the stale id s = slot 1 version 1 fails the subscriber-side `entry`
guard of `track` while the source-side insert for the live observer E
proceeds: s is recorded as a source of E, but E is not a subscriber of s. -/
theorem c4_stale_track_breaks_mirror :
    (⟨1, 1⟩ : V.Key) ∈ V.sGetD c4v5.nodeSources ⟨2, 1⟩ ∧
      (⟨2, 1⟩ : V.Key) ∉ V.sGetD c4v5.nodeSubscribers ⟨1, 1⟩ ∧
      ¬ V.Mirror c4v5 :=
  ⟨by decide, by decide,
    fun h => absurd ((h ⟨1, 1⟩ ⟨2, 1⟩).mp (by decide)) (by decide)⟩

/-- C4 amended: `Runtime::track` guards each side with
`SecondaryMap::entry`.  (1) When the tracked id's subscriber slot and the
observer's source slot are both current — vacant at a version not newer than
the key, or held at exactly the key's version; in particular whenever only
live ids have ever been tracked — both inserts happen and the exact mirror
is preserved.  (2) When the tracked id is stale (its subscriber slot has
moved past the key's version) while the observer's source slot accepts its
entry, the subscriber map is left completely unchanged and the stale id is
still inserted into the observer's source set: the mirror breaks
one-sidedly, as the counterexample's reachable state exhibits. -/
theorem c4_track_mirror_guarded :
    (∀ (rt : V.Runtime) (id obs : V.Key), rt.observer = some obs →
        V.rowCurrent rt.nodeSubscribers id = true →
        V.rowCurrent rt.nodeSources obs = true →
        V.Mirror rt → V.Mirror (V.track rt id)) ∧
      (∀ (rt : V.Runtime) (id obs : V.Key), rt.observer = some obs →
        V.sEntryOk rt.nodeSubscribers id = false →
        V.sEntryOk rt.nodeSources obs = true →
        (V.track rt id).nodeSubscribers = rt.nodeSubscribers ∧
          id ∈ V.sGetD (V.track rt id).nodeSources obs) := by
  constructor
  · intro rt id obs hobs hcs hco hm
    have hs1 : V.sEntryOk rt.nodeSubscribers id = true := V.entryOk_of_rowCurrent _ _ hcs
    have ho1 : V.sEntryOk rt.nodeSources obs = true := V.entryOk_of_rowCurrent _ _ hco
    have e : V.track rt id =
        { rt with nodeSubscribers := V.sEntryInsert rt.nodeSubscribers id obs,
                  nodeSources := V.sEntryInsert rt.nodeSources obs id } := by
      simp only [V.track, hobs, hs1, ho1, if_true]
    rw [e]
    intro a b
    show a ∈ V.sGetD (V.sEntryInsert rt.nodeSources obs id) b ↔
      b ∈ V.sGetD (V.sEntryInsert rt.nodeSubscribers id obs) a
    by_cases hb : b = obs
    · subst hb
      rw [V.sGetD_entryInsert_self _ _ _ hco, V.mem_insertKey]
      by_cases ha : a = id
      · subst ha
        rw [V.sGetD_entryInsert_self _ _ _ hcs, V.mem_insertKey]
        constructor
        · intro _
          exact Or.inr rfl
        · intro _
          exact Or.inr rfl
      · rw [V.sGetD_entryInsert_other _ _ _ _ ha hcs]
        constructor
        · rintro (h1 | h1)
          · exact (hm a b).mp h1
          · exact absurd h1 ha
        · intro h1
          exact Or.inl ((hm a b).mpr h1)
    · rw [V.sGetD_entryInsert_other _ _ _ _ hb hco]
      by_cases ha : a = id
      · subst ha
        rw [V.sGetD_entryInsert_self _ _ _ hcs, V.mem_insertKey]
        constructor
        · intro h1
          exact Or.inl ((hm a b).mp h1)
        · rintro (h1 | h1)
          · exact (hm a b).mpr h1
          · exact absurd h1 hb
      · rw [V.sGetD_entryInsert_other _ _ _ _ ha hcs]
        exact hm a b
  · intro rt id obs hobs hsf hot
    have e : V.track rt id = { rt with nodeSources := V.sEntryInsert rt.nodeSources obs id } := by
      simp only [V.track, hobs, hsf, hot, Bool.false_eq_true, if_true, if_false]
    rw [e]
    exact ⟨rfl, V.mem_entryInsert_self _ _ _⟩

/-- C4 witness state for the preservation half: a fresh versioned runtime
with an installed observer. -/
def c4w0 : V.Runtime := { V.freshRuntime with observer := some ⟨0, 1⟩ }

/-- C4 witness state for the failure half: subscriber slot 1 has been seen
at version 4, so the key (slot 1, version 1) is stale there. -/
def c4w1 : V.Runtime :=
  { V.freshRuntime with
    observer := some ⟨0, 1⟩,
    nodeSubscribers := updf V.freshRuntime.nodeSubscribers 1 { ver := 4, val := none } }

/-- C4 witness: both halves of the amended theorem at concrete inputs. -/
theorem c4_track_mirror_guarded_witness :
    V.Mirror (V.track c4w0 ⟨1, 1⟩) ∧
      ((V.track c4w1 ⟨1, 1⟩).nodeSubscribers = c4w1.nodeSubscribers ∧
        (⟨1, 1⟩ : V.Key) ∈ V.sGetD (V.track c4w1 ⟨1, 1⟩).nodeSources ⟨0, 1⟩) :=
  ⟨c4_track_mirror_guarded.1 c4w0 ⟨1, 1⟩ ⟨0, 1⟩ rfl (by decide) (by decide)
      (fun a b => by simp [c4w0, V.freshRuntime, V.sGetD, V.sGet]),
    c4_track_mirror_guarded.2 c4w1 ⟨1, 1⟩ ⟨0, 1⟩ rfl (by decide) (by decide)⟩

/-! ## C6 and C7: characterisation and termination of `mark_descendants_dirty` -/

/-- A node the DFS will traverse *through*: live and in state Clean or Dirty
(nodes at Check or DirtyMarked are skipped by the visited-guard, dead nodes
are skipped outright). -/
def TravNode (rt : Runtime) (m : Nat) : Prop :=
  ∃ nd, rt.nodes m = some nd ∧ (nd.state = NodeState.Clean ∨ nd.state = NodeState.Dirty)

/-- A path along subscriber edges from `c` to `n` in which every node except
the target is traversable (`TravNode`); `refl` makes the target itself
reachable with no requirement on its own state. -/
inductive SubPath (rt : Runtime) : Nat → Nat → Prop where
  | refl (n : Nat) : SubPath rt n n
  | head {c d n : Nat} : TravNode rt c → d ∈ ((rt.nodeSubscribers c).getD []) →
      SubPath rt d n → SubPath rt c n

/-- `n` is reachable from `root` through one or more subscriber edges whose
intermediate nodes are all traversable (the root itself needs no
traversability: the marking pass reads its subscribers unconditionally). -/
def ReachesFrom (rt : Runtime) (root n : Nat) : Prop :=
  ∃ d, d ∈ ((rt.nodeSubscribers root).getD []) ∧ SubPath rt d n

theorem subPath_snoc (rt : Runtime) {a c : Nat} (h : SubPath rt a c)
    (hc : TravNode rt c) {d : Nat} (hd : d ∈ ((rt.nodeSubscribers c).getD [])) :
    SubPath rt a d := by
  induction h with
  | refl n => exact SubPath.head hc hd (SubPath.refl d)
  | head ht hmem _ ih => exact SubPath.head ht hmem (ih hc hd)

theorem reachesFrom_extend (rt : Runtime) {root c : Nat} (h : ReachesFrom rt root c)
    (hc : TravNode rt c) {d : Nat} (hd : d ∈ ((rt.nodeSubscribers c).getD [])) :
    ReachesFrom rt root d := by
  obtain ⟨e, he, hp⟩ := h
  exact ⟨e, he, subPath_snoc rt hp hc hd⟩

/-- Path surgery under a single-node state change: any current-state path
either survives, or ends at the changed node, or can be restarted from one of
the changed node's subscribers. -/
theorem subPath_mark {st st2 : Runtime} {c : Nat}
    (h2subs : st2.nodeSubscribers = st.nodeSubscribers)
    (h2nodes : ∀ m, m ≠ c → st2.nodes m = st.nodes m) :
    ∀ {c' n : Nat}, SubPath st c' n →
      SubPath st2 c' n ∨ n = c ∨
        ∃ d, d ∈ ((st.nodeSubscribers c).getD []) ∧ SubPath st2 d n := by
  intro c' n h
  induction h with
  | refl m => exact Or.inl (SubPath.refl m)
  | head ht hmem htail ih =>
    rename_i c1 d1 n1
    rcases ih with ih | ih | ih
    · by_cases hc1 : c1 = c
      · subst hc1
        exact Or.inr (Or.inr ⟨d1, hmem, ih⟩)
      · refine Or.inl (SubPath.head ?_ ?_ ih)
        · obtain ⟨nd, hnd, hst⟩ := ht
          exact ⟨nd, (h2nodes c1 hc1).trans hnd, hst⟩
        · rw [h2subs]
          exact hmem
    · exact Or.inr (Or.inl ih)
    · exact Or.inr (Or.inr ih)

theorem setNodeState_observer (rt : Runtime) (id : Nat) (s : NodeState) :
    (setNodeState rt id s).observer = rt.observer := by
  unfold setNodeState; cases rt.nodes id <;> rfl

theorem setNodeState_pendingEffects (rt : Runtime) (id : Nat) (s : NodeState) :
    (setNodeState rt id s).pendingEffects = rt.pendingEffects := by
  unfold setNodeState; cases rt.nodes id <;> rfl

theorem setNodeState_nodes_self (rt : Runtime) {id : Nat} {node : Node}
    (h : rt.nodes id = some node) (s : NodeState) :
    (setNodeState rt id s).nodes id = some { node with state := s } := by
  unfold setNodeState
  rw [h]
  exact updf_same rt.nodes id _

theorem visitNode_observer (rt : Runtime) (c : Nat) (node : Node) :
    (visitNode rt c node).observer = rt.observer := by
  unfold visitNode
  cases node.kind with
  | signal => split <;> simp [setNodeState_observer]
  | effect comp =>
    repeat' split
    all_goals simp [pushPending, setNodeState_observer]

theorem visitNode_nodes (rt : Runtime) (c : Nat) (node : Node) :
    (visitNode rt c node).nodes =
      (if node.state = NodeState.Clean then setNodeState rt c NodeState.Check else rt).nodes := by
  unfold visitNode
  cases node.kind with
  | signal => rfl
  | effect comp =>
    repeat' split
    all_goals rfl

theorem visitNode_nodes_other (rt : Runtime) (c : Nat) (node : Node) {m : Nat}
    (hm : m ≠ c) : (visitNode rt c node).nodes m = rt.nodes m := by
  rw [visitNode_nodes]
  split
  · exact setNodeState_nodes_other rt c _ hm
  · rfl

theorem visitNode_nodes_clean (rt : Runtime) {c : Nat} {node : Node}
    (hc : rt.nodes c = some node) (hclean : node.state = NodeState.Clean) :
    (visitNode rt c node).nodes c = some { node with state := NodeState.Check } := by
  rw [visitNode_nodes, if_pos hclean]
  exact setNodeState_nodes_self rt hc NodeState.Check

theorem visitNode_nodes_notclean (rt : Runtime) (c : Nat) {node : Node}
    (hnc : node.state ≠ NodeState.Clean) :
    ∀ m, (visitNode rt c node).nodes m = rt.nodes m := by
  intro m
  rw [visitNode_nodes, if_neg hnc]

theorem visitNode_pending_mono (rt : Runtime) (c : Nat) (node : Node) {x : Nat}
    (hx : x ∈ rt.pendingEffects) : x ∈ (visitNode rt c node).pendingEffects := by
  unfold visitNode
  cases node.kind with
  | signal => split <;> simp [setNodeState_pendingEffects, hx]
  | effect comp =>
    repeat' split
    all_goals simp [pushPending, setNodeState_pendingEffects, hx]

theorem visitNode_queues (rt : Runtime) (c : Nat) {node : Node} {comp : List Action}
    (hk : node.kind = NodeKind.effect comp) (hobs : rt.observer ≠ some c) :
    c ∈ (visitNode rt c node).pendingEffects := by
  unfold visitNode
  rw [hk]
  dsimp only
  rw [if_neg hobs]
  simp [pushPending]

theorem markDfs_step_pop (fuel : Nat) (st : Runtime) (rest : List (List Nat)) :
    markDfs (fuel + 1) st ([] :: rest) = markDfs fuel st rest :=
  rfl

theorem markDfs_step_dead {st : Runtime} {c : Nat} (h : st.nodes c = none)
    (fuel : Nat) (cs : List Nat) (rest : List (List Nat)) :
    markDfs (fuel + 1) st ((c :: cs) :: rest) = markDfs fuel st (cs :: rest) := by
  simp only [markDfs, h]

theorem markDfs_step_skip {st : Runtime} {c : Nat} {node : Node}
    (h : st.nodes c = some node)
    (hg : node.state = NodeState.Check ∨ node.state = NodeState.DirtyMarked)
    (fuel : Nat) (cs : List Nat) (rest : List (List Nat)) :
    markDfs (fuel + 1) st ((c :: cs) :: rest) = markDfs fuel st (cs :: rest) := by
  simp only [markDfs, h, if_pos hg]

theorem markDfs_step_visit_none {st : Runtime} {c : Nat} {node : Node}
    (h : st.nodes c = some node)
    (hg : ¬(node.state = NodeState.Check ∨ node.state = NodeState.DirtyMarked))
    (hsub : (visitNode st c node).nodeSubscribers c = none)
    (fuel : Nat) (cs : List Nat) (rest : List (List Nat)) :
    markDfs (fuel + 1) st ((c :: cs) :: rest) =
      markDfs fuel (visitNode st c node) (cs :: rest) := by
  simp only [markDfs, h, if_neg hg, hsub]

theorem markDfs_step_visit_some {st : Runtime} {c : Nat} {node : Node}
    {children : List Nat} (h : st.nodes c = some node)
    (hg : ¬(node.state = NodeState.Check ∨ node.state = NodeState.DirtyMarked))
    (hsub : (visitNode st c node).nodeSubscribers c = some children)
    (fuel : Nat) (cs : List Nat) (rest : List (List Nat)) :
    markDfs (fuel + 1) st ((c :: cs) :: rest) =
      markDfs fuel (visitNode st c node) (children :: cs :: rest) := by
  simp only [markDfs, h, if_neg hg, hsub]

/-- An id occurring in some frame of the DFS stack. -/
def InStack (stack : List (List Nat)) (n : Nat) : Prop :=
  ∃ f, f ∈ stack ∧ n ∈ f

/-- The invariant carried through the marking DFS.  `st0` is the state at the
start of the traversal (the root already DirtyMarked), `st` the current state
and `stack` the current stack of remaining-children frames. -/
structure DfsInv (st0 : Runtime) (root : Nat) (st : Runtime)
    (stack : List (List Nat)) : Prop where
  subsEq : st.nodeSubscribers = st0.nodeSubscribers
  obsEq : st.observer = st0.observer
  evol : ∀ n, st.nodes n = st0.nodes n ∨
    ∃ nd, st0.nodes n = some nd ∧ nd.state = NodeState.Clean ∧
      st.nodes n = some { nd with state := NodeState.Check } ∧ ReachesFrom st0 root n
  pendMono : ∀ x, x ∈ st0.pendingEffects → x ∈ st.pendingEffects
  sound : ∀ n, InStack stack n → ReachesFrom st0 root n
  queued : ∀ n nd comp, st0.nodes n = some nd → nd.state = NodeState.Clean →
    nd.kind = NodeKind.effect comp → st0.observer ≠ some n →
    ∀ nd', st.nodes n = some nd' → nd'.state = NodeState.Check →
      n ∈ st.pendingEffects
  complA : ∀ n nd, ReachesFrom st0 root n → st0.nodes n = some nd →
    nd.state = NodeState.Clean →
    (∃ nd', st.nodes n = some nd' ∧ nd'.state = NodeState.Check) ∨
    ∃ c, InStack stack c ∧ SubPath st c n
  complB : ∀ n nd comp, ReachesFrom st0 root n → st0.nodes n = some nd →
    (nd.state = NodeState.Clean ∨ nd.state = NodeState.Dirty) →
    nd.kind = NodeKind.effect comp → st0.observer ≠ some n →
    n ∈ st.pendingEffects ∨ ∃ c, InStack stack c ∧ SubPath st c n

theorem inStack_pop {rest : List (List Nat)} {n : Nat} :
    InStack ([] :: rest) n ↔ InStack rest n := by
  constructor
  · rintro ⟨f, hf, hn⟩
    rcases List.mem_cons.mp hf with rfl | hf
    · cases hn
    · exact ⟨f, hf, hn⟩
  · rintro ⟨f, hf, hn⟩
    exact ⟨f, List.mem_cons_of_mem _ hf, hn⟩

theorem inStack_cons_elim {c : Nat} {cs : List Nat} {rest : List (List Nat)} {n : Nat}
    (h : InStack ((c :: cs) :: rest) n) : n = c ∨ InStack (cs :: rest) n := by
  obtain ⟨f, hf, hn⟩ := h
  rcases List.mem_cons.mp hf with rfl | hf
  · rcases List.mem_cons.mp hn with rfl | hn
    · exact Or.inl rfl
    · exact Or.inr ⟨cs, List.mem_cons_self cs rest, hn⟩
  · exact Or.inr ⟨f, List.mem_cons_of_mem _ hf, hn⟩

theorem inStack_tail_mono {c : Nat} {cs : List Nat} {rest : List (List Nat)} {n : Nat}
    (h : InStack (cs :: rest) n) : InStack ((c :: cs) :: rest) n := by
  obtain ⟨f, hf, hn⟩ := h
  rcases List.mem_cons.mp hf with rfl | hf
  · exact ⟨c :: f, List.mem_cons_self _ _, List.mem_cons_of_mem c hn⟩
  · exact ⟨f, List.mem_cons_of_mem _ hf, hn⟩

theorem inStack_push_mono {children cs : List Nat} {rest : List (List Nat)} {n : Nat}
    (h : InStack (cs :: rest) n) : InStack (children :: cs :: rest) n := by
  obtain ⟨f, hf, hn⟩ := h
  exact ⟨f, List.mem_cons_of_mem _ hf, hn⟩

theorem inStack_push_head {children cs : List Nat} {rest : List (List Nat)} {n : Nat}
    (h : n ∈ children) : InStack (children :: cs :: rest) n :=
  ⟨children, List.mem_cons_self _ _, h⟩

theorem dfsInv_pop {st0 : Runtime} {root : Nat} {st : Runtime} {rest : List (List Nat)}
    (hinv : DfsInv st0 root st ([] :: rest)) : DfsInv st0 root st rest := by
  refine ⟨hinv.subsEq, hinv.obsEq, hinv.evol, hinv.pendMono, ?_, hinv.queued, ?_, ?_⟩
  · intro n hn
    exact hinv.sound n (inStack_pop.mpr hn)
  · intro n nd h1 h2 h3
    rcases hinv.complA n nd h1 h2 h3 with h | ⟨c, hc, hp⟩
    · exact Or.inl h
    · exact Or.inr ⟨c, inStack_pop.mp hc, hp⟩
  · intro n nd comp h1 h2 h3 h4 h5
    rcases hinv.complB n nd comp h1 h2 h3 h4 h5 with h | ⟨c, hc, hp⟩
    · exact Or.inl h
    · exact Or.inr ⟨c, inStack_pop.mp hc, hp⟩

theorem dfsInv_dead {st0 : Runtime} {root : Nat} {st : Runtime} {c : Nat} {cs : List Nat}
    {rest : List (List Nat)} (hinv : DfsInv st0 root st ((c :: cs) :: rest))
    (hdead : st.nodes c = none) : DfsInv st0 root st (cs :: rest) := by
  have relocate : ∀ n nd, st0.nodes n = some nd → SubPath st c n → False := by
    intro n nd h0 hp
    cases hp with
    | refl =>
      rcases hinv.evol c with he | ⟨nd1, _, _, h3, _⟩
      · rw [hdead, h0] at he
        cases he
      · rw [hdead] at h3
        cases h3
    | head ht hmem htail =>
      obtain ⟨nd0, hnd0, _⟩ := ht
      rw [hdead] at hnd0
      cases hnd0
  refine ⟨hinv.subsEq, hinv.obsEq, hinv.evol, hinv.pendMono, ?_, hinv.queued, ?_, ?_⟩
  · intro n hn
    exact hinv.sound n (inStack_tail_mono hn)
  · intro n nd h1 h2 h3
    rcases hinv.complA n nd h1 h2 h3 with h | ⟨c', hc', hp⟩
    · exact Or.inl h
    · rcases inStack_cons_elim hc' with heq | hc2
      · subst heq
        exact ((relocate n nd h2 hp)).elim
      · exact Or.inr ⟨c', hc2, hp⟩
  · intro n nd comp h1 h2 h3 h4 h5
    rcases hinv.complB n nd comp h1 h2 h3 h4 h5 with h | ⟨c', hc', hp⟩
    · exact Or.inl h
    · rcases inStack_cons_elim hc' with heq | hc2
      · subst heq
        exact ((relocate n nd h2 hp)).elim
      · exact Or.inr ⟨c', hc2, hp⟩

theorem dfsInv_skip {st0 : Runtime} {root : Nat} {st : Runtime} {c : Nat} {cs : List Nat}
    {rest : List (List Nat)} {node : Node}
    (hinv : DfsInv st0 root st ((c :: cs) :: rest)) (hc : st.nodes c = some node)
    (hg : node.state = NodeState.Check ∨ node.state = NodeState.DirtyMarked) :
    DfsInv st0 root st (cs :: rest) := by
  have hncd : ¬(node.state = NodeState.Clean ∨ node.state = NodeState.Dirty) := by
    rcases hg with h | h <;> rw [h] <;> decide
  have notrav : ¬TravNode st c := by
    rintro ⟨nd0, hnd0, hst0⟩
    rw [hc] at hnd0
    cases hnd0
    exact hncd hst0
  have reflCaseA : ∀ nd, st0.nodes c = some nd → nd.state = NodeState.Clean →
      ∃ nd', st.nodes c = some nd' ∧ nd'.state = NodeState.Check := by
    intro nd h2 h3
    rcases hinv.evol c with he | ⟨nd1, _, _, e3, _⟩
    · rw [hc, h2] at he
      cases he
      exact absurd (Or.inl h3) hncd
    · exact ⟨_, e3, rfl⟩
  have reflCaseB : ∀ nd comp, st0.nodes c = some nd →
      (nd.state = NodeState.Clean ∨ nd.state = NodeState.Dirty) →
      nd.kind = NodeKind.effect comp → st0.observer ≠ some c →
      c ∈ st.pendingEffects := by
    intro nd comp h2 h3 h4 h5
    rcases hinv.evol c with he | ⟨nd1, e1, e2, e3, _⟩
    · rw [hc, h2] at he
      cases he
      exact absurd h3 hncd
    · rw [h2] at e1
      cases e1
      exact hinv.queued c nd comp h2 e2 h4 h5 _ e3 rfl
  refine ⟨hinv.subsEq, hinv.obsEq, hinv.evol, hinv.pendMono, ?_, hinv.queued, ?_, ?_⟩
  · intro n hn
    exact hinv.sound n (inStack_tail_mono hn)
  · intro n nd h1 h2 h3
    rcases hinv.complA n nd h1 h2 h3 with h | ⟨c', hc', hp⟩
    · exact Or.inl h
    · rcases inStack_cons_elim hc' with heq | hc2
      · subst heq
        cases hp with
        | refl => exact Or.inl (reflCaseA nd h2 h3)
        | head ht hmem htail => exact (notrav ht).elim
      · exact Or.inr ⟨c', hc2, hp⟩
  · intro n nd comp h1 h2 h3 h4 h5
    rcases hinv.complB n nd comp h1 h2 h3 h4 h5 with h | ⟨c', hc', hp⟩
    · exact Or.inl h
    · rcases inStack_cons_elim hc' with heq | hc2
      · subst heq
        cases hp with
        | refl => exact Or.inl (reflCaseB nd comp h2 h3 h4 h5)
        | head ht hmem htail => exact (notrav ht).elim
      · exact Or.inr ⟨c', hc2, hp⟩

theorem inStack_push_elim {children cs : List Nat} {rest : List (List Nat)} {n : Nat}
    (h : InStack (children :: cs :: rest) n) : n ∈ children ∨ InStack (cs :: rest) n := by
  obtain ⟨f, hf, hn⟩ := h
  rcases List.mem_cons.mp hf with rfl | hf
  · exact Or.inl hn
  · exact Or.inr ⟨f, hf, hn⟩

theorem dfsInv_visit {st0 : Runtime} {root : Nat} {st : Runtime} {c : Nat} {cs : List Nat}
    {rest : List (List Nat)} {node : Node}
    (hinv : DfsInv st0 root st ((c :: cs) :: rest)) (hc : st.nodes c = some node)
    (hg : ¬(node.state = NodeState.Check ∨ node.state = NodeState.DirtyMarked)) :
    DfsInv st0 root (visitNode st c node)
      (((visitNode st c node).nodeSubscribers c).getD [] :: cs :: rest) := by
  have hstate : node.state = NodeState.Clean ∨ node.state = NodeState.Dirty := by
    cases hnst : node.state with
    | Clean => exact Or.inl rfl
    | Dirty => exact Or.inr rfl
    | Check => exact absurd (Or.inl hnst) hg
    | DirtyMarked => exact absurd (Or.inr hnst) hg
  have hreach : ReachesFrom st0 root c :=
    hinv.sound c ⟨c :: cs, List.mem_cons_self _ _, List.mem_cons_self _ _⟩
  have hst0c : st0.nodes c = some node := by
    rcases hinv.evol c with he | ⟨nd1, _, _, e3, _⟩
    · rw [hc] at he
      exact he.symm
    · rw [hc] at e3
      have hh := Option.some.inj e3
      subst hh
      exact absurd (Or.inl rfl) hg
  have htrav0 : TravNode st0 c := ⟨node, hst0c, hstate⟩
  have hsubs2 : (visitNode st c node).nodeSubscribers = st.nodeSubscribers :=
    visitNode_nodeSubscribers st c node
  have hframe : ((visitNode st c node).nodeSubscribers c).getD [] =
      ((st0.nodeSubscribers c).getD []) := by
    rw [congrFun hsubs2 c, congrFun hinv.subsEq c]
  have mkClean : ∀ nd, st0.nodes c = some nd → nd.state = NodeState.Clean →
      ∃ nd', (visitNode st c node).nodes c = some nd' ∧ nd'.state = NodeState.Check := by
    intro nd h2 h3
    rw [hst0c] at h2
    cases h2
    exact ⟨_, visitNode_nodes_clean st hc h3, rfl⟩
  have mkQueue : ∀ nd comp, st0.nodes c = some nd →
      nd.kind = NodeKind.effect comp → st0.observer ≠ some c →
      c ∈ (visitNode st c node).pendingEffects := by
    intro nd comp h2 hk hobs
    rw [hst0c] at h2
    cases h2
    refine visitNode_queues st c hk ?_
    rw [hinv.obsEq]
    exact hobs
  have hsurgery := fun {c' n : Nat} (hp : SubPath st c' n) =>
    subPath_mark hsubs2 (fun m hm => visitNode_nodes_other st c node hm) hp
  refine ⟨hsubs2.trans hinv.subsEq, (visitNode_observer st c node).trans hinv.obsEq,
    ?_, ?_, ?_, ?_, ?_, ?_⟩
  · -- evol
    intro n
    by_cases hn : n = c
    · subst hn
      rcases hstate with hcl | hdi
      · exact Or.inr ⟨node, hst0c, hcl, visitNode_nodes_clean st hc hcl, hreach⟩
      · have hne : node.state ≠ NodeState.Clean := by
          rw [hdi]
          decide
        rcases hinv.evol n with he | ⟨nd1, _, _, e3, _⟩
        · exact Or.inl ((visitNode_nodes_notclean st n hne n).trans he)
        · rw [hc] at e3
          have hh := Option.some.inj e3
          rw [hh] at hdi
          cases hdi
    · rcases hinv.evol n with he | ⟨nd1, e1, e2, e3, hr⟩
      · exact Or.inl ((visitNode_nodes_other st c node hn).trans he)
      · exact Or.inr ⟨nd1, e1, e2, (visitNode_nodes_other st c node hn).trans e3, hr⟩
  · -- pendMono
    intro x hx
    exact visitNode_pending_mono st c node (hinv.pendMono x hx)
  · -- sound
    intro n hn
    rcases inStack_push_elim hn with hmem | htail
    · rw [hframe] at hmem
      exact reachesFrom_extend st0 hreach htrav0 hmem
    · exact hinv.sound n (inStack_tail_mono htail)
  · -- queued
    intro n nd comp h0 hcl hk hobs nd' hn' hst'
    by_cases hn : n = c
    · subst hn
      exact mkQueue nd comp h0 hk hobs
    · rw [visitNode_nodes_other st c node hn] at hn'
      exact visitNode_pending_mono st c node
        (hinv.queued n nd comp h0 hcl hk hobs nd' hn' hst')
  · -- complA
    intro n nd h1 h2 h3
    rcases hinv.complA n nd h1 h2 h3 with ⟨nd', he, hs⟩ | ⟨c', hc', hp⟩
    · by_cases hn : n = c
      · subst hn
        rw [hc] at he
        have hh := Option.some.inj he
        rw [← hh] at hs
        exact absurd (Or.inl hs) hg
      · refine Or.inl ⟨nd', ?_, hs⟩
        rw [visitNode_nodes_other st c node hn]
        exact he
    · rcases hsurgery hp with hp2 | heqn | ⟨d, hd, hp2⟩
      · rcases inStack_cons_elim hc' with heq | hc2
        · subst heq
          cases hp2 with
          | refl => exact Or.inl (mkClean nd h2 h3)
          | head ht2 hmem2 htail2 =>
            exact Or.inr ⟨_, inStack_push_head hmem2, htail2⟩
        · exact Or.inr ⟨c', inStack_push_mono hc2, hp2⟩
      · subst heqn
        exact Or.inl (mkClean nd h2 h3)
      · refine Or.inr ⟨d, inStack_push_head ?_, hp2⟩
        rw [congrFun hsubs2 c]
        exact hd
  · -- complB
    intro n nd comp h1 h2 h3 h4 h5
    rcases hinv.complB n nd comp h1 h2 h3 h4 h5 with hmem | ⟨c', hc', hp⟩
    · exact Or.inl (visitNode_pending_mono st c node hmem)
    · rcases hsurgery hp with hp2 | heqn | ⟨d, hd, hp2⟩
      · rcases inStack_cons_elim hc' with heq | hc2
        · subst heq
          cases hp2 with
          | refl => exact Or.inl (mkQueue nd comp h2 h4 h5)
          | head ht2 hmem2 htail2 =>
            exact Or.inr ⟨_, inStack_push_head hmem2, htail2⟩
        · exact Or.inr ⟨c', inStack_push_mono hc2, hp2⟩
      · subst heqn
        exact Or.inl (mkQueue nd comp h2 h4 h5)
      · refine Or.inr ⟨d, inStack_push_head ?_, hp2⟩
        rw [congrFun hsubs2 c]
        exact hd

/-- The invariant is carried from any configuration to the final state of a
successful DFS run. -/
theorem markDfs_inv {st0 : Runtime} {root : Nat} :
    ∀ (fuel : Nat) (st : Runtime) (stack : List (List Nat)) (st' : Runtime),
      DfsInv st0 root st stack → markDfs fuel st stack = some st' →
      DfsInv st0 root st' [] := by
  intro fuel
  induction fuel with
  | zero => intro st stack st' _ h; cases h
  | succ fuel ih =>
    intro st stack st' hinv h
    match stack with
    | [] =>
      cases h
      exact hinv
    | [] :: rest =>
      rw [markDfs_step_pop] at h
      exact ih st rest st' (dfsInv_pop hinv) h
    | (c :: cs) :: rest =>
      cases hnode : st.nodes c with
      | none =>
        rw [markDfs_step_dead hnode] at h
        exact ih st (cs :: rest) st' (dfsInv_dead hinv hnode) h
      | some node =>
        by_cases hguard : node.state = NodeState.Check ∨ node.state = NodeState.DirtyMarked
        · rw [markDfs_step_skip hnode hguard] at h
          exact ih st (cs :: rest) st' (dfsInv_skip hinv hnode hguard) h
        · cases hsub : (visitNode st c node).nodeSubscribers c with
          | none =>
            rw [markDfs_step_visit_none hnode hguard hsub] at h
            have hv := dfsInv_visit hinv hnode hguard
            rw [hsub] at hv
            exact ih _ (cs :: rest) st' (dfsInv_pop hv) h
          | some children =>
            rw [markDfs_step_visit_some hnode hguard hsub] at h
            have hv := dfsInv_visit hinv hnode hguard
            rw [hsub] at hv
            exact ih _ (children :: cs :: rest) st' hv h

/-- The invariant holds at the start of the traversal. -/
theorem dfsInv_init (rt : Runtime) (root : Nat) (children : List Nat)
    (hch : rt.nodeSubscribers root = some children) :
    DfsInv (setNodeState rt root NodeState.DirtyMarked) root
      (setNodeState rt root NodeState.DirtyMarked) [children] := by
  refine ⟨rfl, rfl, fun n => Or.inl rfl, fun x hx => hx, ?_, ?_, ?_, ?_⟩
  · intro n hn
    obtain ⟨f, hf, hnf⟩ := hn
    rcases List.mem_cons.mp hf with rfl | hf
    · refine ⟨n, ?_, SubPath.refl n⟩
      rw [congrFun (setNodeState_nodeSubscribers rt root NodeState.DirtyMarked) root, hch]
      exact hnf
    · cases hf
  · intro n nd comp h0 hcl hk hobs nd' hn' hst'
    rw [h0] at hn'
    cases hn'
    rw [hcl] at hst'
    cases hst'
  · intro n nd h1 _ _
    obtain ⟨d, hd, hp⟩ := h1
    exact Or.inr ⟨d, ⟨children, List.mem_cons_self _ _, by
      rw [congrFun (setNodeState_nodeSubscribers rt root NodeState.DirtyMarked) root, hch] at hd
      exact hd⟩, hp⟩
  · intro n nd comp h1 _ _ _ _
    obtain ⟨d, hd, hp⟩ := h1
    exact Or.inr ⟨d, ⟨children, List.mem_cons_self _ _, by
      rw [congrFun (setNodeState_nodeSubscribers rt root NodeState.DirtyMarked) root, hch] at hd
      exact hd⟩, hp⟩

/-- A successful `mark_descendants_dirty` run (root live, not yet
DirtyMarked) satisfies the invariant at the empty stack. -/
theorem markDescendantsDirty_post {fuel : Nat} {rt : Runtime} {root : Nat} {rt' : Runtime}
    {node : Node} (hroot : rt.nodes root = some node)
    (hnm : node.state ≠ NodeState.DirtyMarked)
    (hrun : markDescendantsDirty fuel rt root = some rt') :
    DfsInv (setNodeState rt root NodeState.DirtyMarked) root rt' [] := by
  simp only [markDescendantsDirty, hroot, if_neg hnm] at hrun
  cases hch : rt.nodeSubscribers root with
  | none =>
    rw [hch] at hrun
    cases hrun
    refine ⟨rfl, rfl, fun n => Or.inl rfl, fun x hx => hx, ?_, ?_, ?_, ?_⟩
    · intro n hn
      obtain ⟨f, hf, _⟩ := hn
      cases hf
    · intro n nd comp h0 hcl hk hobs nd' hn' hst'
      rw [h0] at hn'
      cases hn'
      rw [hcl] at hst'
      cases hst'
    · intro n nd h1 _ _
      obtain ⟨d, hd, _⟩ := h1
      rw [congrFun (setNodeState_nodeSubscribers rt root NodeState.DirtyMarked) root, hch] at hd
      cases hd
    · intro n nd comp h1 _ _ _ _
      obtain ⟨d, hd, _⟩ := h1
      rw [congrFun (setNodeState_nodeSubscribers rt root NodeState.DirtyMarked) root, hch] at hd
      cases hd
  | some children =>
    rw [hch] at hrun
    exact markDfs_inv fuel _ [children] rt' (dfsInv_init rt root children hch) hrun

/-- C6 (amended): post-state of `mark_descendants_dirty(root)` for a live
root.  If the root is already DirtyMarked the call changes nothing.
Otherwise, writing `st0` for the state with the root set to DirtyMarked (in
`st0` every other node keeps its state from `rt`, and the root — being
DirtyMarked — cannot be traversed *through*): the root ends DirtyMarked;
every node that was Clean and is reachable from the root through one or more
subscriber edges whose intermediate nodes are live and were Clean or Dirty
(`ReachesFrom st0 root`) ends at Check; nodes other than the root that were
already at Check or DirtyMarked are left unchanged (they block traversal, so
nodes only reachable through them may stay Clean — see the counterexample);
and every so-reachable live Effect in state Clean or Dirty, other than the
current observer, has been appended to the pending-effects queue. -/
theorem c6_mark_descendants_post (fuel : Nat) (rt : Runtime) (root : Nat)
    (node : Node) (hroot : rt.nodes root = some node) :
    (node.state = NodeState.DirtyMarked → markDescendantsDirty fuel rt root = some rt) ∧
    (node.state ≠ NodeState.DirtyMarked →
      ∀ rt', markDescendantsDirty fuel rt root = some rt' →
        rt'.nodes root = some { node with state := NodeState.DirtyMarked } ∧
        (∀ n nd0, ReachesFrom (setNodeState rt root NodeState.DirtyMarked) root n →
          (setNodeState rt root NodeState.DirtyMarked).nodes n = some nd0 →
          nd0.state = NodeState.Clean →
          ∃ nd', rt'.nodes n = some nd' ∧ nd'.state = NodeState.Check) ∧
        (∀ n nd0, n ≠ root → rt.nodes n = some nd0 →
          (nd0.state = NodeState.Check ∨ nd0.state = NodeState.DirtyMarked) →
          rt'.nodes n = rt.nodes n) ∧
        (∀ n nd0 comp, ReachesFrom (setNodeState rt root NodeState.DirtyMarked) root n →
          (setNodeState rt root NodeState.DirtyMarked).nodes n = some nd0 →
          (nd0.state = NodeState.Clean ∨ nd0.state = NodeState.Dirty) →
          nd0.kind = NodeKind.effect comp → rt.observer ≠ some n →
          n ∈ rt'.pendingEffects)) := by
  constructor
  · intro hdm
    simp only [markDescendantsDirty, hroot, if_pos hdm]
  · intro hnm rt' hrun
    have inv := markDescendantsDirty_post hroot hnm hrun
    refine ⟨?_, ?_, ?_, ?_⟩
    · rcases inv.evol root with he | ⟨nd1, e1, e2, _, _⟩
      · exact he.trans (setNodeState_nodes_self rt hroot NodeState.DirtyMarked)
      · rw [setNodeState_nodes_self rt hroot NodeState.DirtyMarked] at e1
        cases e1
        cases e2
    · intro n nd0 h1 h2 h3
      rcases inv.complA n nd0 h1 h2 h3 with h | ⟨c, ⟨f, hf, _⟩, _⟩
      · exact h
      · cases hf
    · intro n nd0 hne hn hst
      rcases inv.evol n with he | ⟨nd1, e1, e2, _, _⟩
      · exact he.trans (setNodeState_nodes_other rt root NodeState.DirtyMarked hne)
      · rw [setNodeState_nodes_other rt root NodeState.DirtyMarked hne, hn] at e1
        cases e1
        rcases hst with h | h <;> rw [e2] at h <;> cases h
    · intro n nd0 comp h1 h2 h3 h4 h5
      have h5' : (setNodeState rt root NodeState.DirtyMarked).observer ≠ some n := by
        rw [setNodeState_observer]
        exact h5
      rcases inv.complB n nd0 comp h1 h2 h3 h4 h5' with h | ⟨c, ⟨f, hf, _⟩, _⟩
      · exact h
      · cases hf

/-- Concrete graph for the C6 witness: signal 0 (Clean) with subscriber
effect 1 (Clean). -/
def c6rt : Runtime :=
  { freshRuntime with
    nodes := fun n =>
      if n = 0 then some ⟨some 0, NodeState.Clean, NodeKind.signal⟩
      else if n = 1 then some ⟨some 0, NodeState.Clean, NodeKind.effect []⟩
      else none,
    nodeSubscribers := fun n => if n = 0 then some [1] else none,
    nextId := 2 }

/-- C6 witness: the amended theorem applied at the concrete graph `c6rt`. -/
theorem c6_mark_descendants_post_witness :
    ((markDescendantsDirty 10 c6rt 0).getD freshRuntime).nodes 0 =
      some { value := some 0, state := NodeState.DirtyMarked, kind := NodeKind.signal } ∧
    (∀ n nd0, ReachesFrom (setNodeState c6rt 0 NodeState.DirtyMarked) 0 n →
      (setNodeState c6rt 0 NodeState.DirtyMarked).nodes n = some nd0 →
      nd0.state = NodeState.Clean →
      ∃ nd', ((markDescendantsDirty 10 c6rt 0).getD freshRuntime).nodes n = some nd' ∧
        nd'.state = NodeState.Check) ∧
    (∀ n nd0, n ≠ 0 → c6rt.nodes n = some nd0 →
      (nd0.state = NodeState.Check ∨ nd0.state = NodeState.DirtyMarked) →
      ((markDescendantsDirty 10 c6rt 0).getD freshRuntime).nodes n = c6rt.nodes n) ∧
    (∀ n nd0 comp, ReachesFrom (setNodeState c6rt 0 NodeState.DirtyMarked) 0 n →
      (setNodeState c6rt 0 NodeState.DirtyMarked).nodes n = some nd0 →
      (nd0.state = NodeState.Clean ∨ nd0.state = NodeState.Dirty) →
      nd0.kind = NodeKind.effect comp → c6rt.observer ≠ some n →
      n ∈ ((markDescendantsDirty 10 c6rt 0).getD freshRuntime).pendingEffects) :=
  (c6_mark_descendants_post 10 c6rt 0 ⟨some 0, NodeState.Clean, NodeKind.signal⟩ rfl).2
    (by decide) ((markDescendantsDirty 10 c6rt 0).getD freshRuntime) rfl

/-- Concrete graph for the C6 counterexample: signal 0 (Clean) → signal 1
(already Check) → signal 2 (Clean). -/
def c6cex : Runtime :=
  { freshRuntime with
    nodes := fun n =>
      if n = 0 then some ⟨some 0, NodeState.Clean, NodeKind.signal⟩
      else if n = 1 then some ⟨some 0, NodeState.Check, NodeKind.signal⟩
      else if n = 2 then some ⟨some 0, NodeState.Clean, NodeKind.signal⟩
      else none,
    nodeSubscribers := fun n =>
      if n = 0 then some [1] else if n = 1 then some [2] else none,
    nextId := 3 }

/-- C6 counterexample: node 2 is Clean and reachable from the live,
not-DirtyMarked root 0 through subscriber edges (0 → 1 → 2), yet after
`mark_descendants_dirty(0)` it is still Clean, because the intermediate node
1 was already at Check and the traversal skips it without descending — the
claim's "every node reachable from root through one or more subscriber edges
that was Clean before the call is at state Check" is false. -/
theorem c6_blocked_path_counterexample :
    nodeState c6cex 0 = NodeState.Clean ∧
    1 ∈ ((c6cex.nodeSubscribers 0).getD []) ∧
    2 ∈ ((c6cex.nodeSubscribers 1).getD []) ∧
    nodeState c6cex 2 = NodeState.Clean ∧
    (markDescendantsDirty 10 c6cex 0).map (fun r => nodeState r 2) =
      some NodeState.Clean ∧
    (markDescendantsDirty 10 c6cex 0).map (fun r => nodeState r 0) =
      some NodeState.DirtyMarked := by
  refine ⟨rfl, ?_, ?_, rfl, rfl, rfl⟩ <;> decide

/-- Concrete graph for the C7 counterexample: Clean signal 0 whose subscriber
1 is a Dirty signal subscribed to itself (a one-node Dirty cycle). -/
def c7cyc : Runtime :=
  { freshRuntime with
    nodes := fun n =>
      if n = 0 then some ⟨some 0, NodeState.Clean, NodeKind.signal⟩
      else if n = 1 then some ⟨some 0, NodeState.Dirty, NodeKind.signal⟩
      else none,
    nodeSubscribers := fun n =>
      if n = 0 then some [1] else if n = 1 then some [1] else none,
    nextId := 2 }

/-- On the Dirty self-loop the traversal revisits node 1 forever: it is never
promoted (only Clean nodes are) and never skipped (only Check/DirtyMarked
are), so every fuel budget is exhausted. -/
theorem c7_loop : ∀ (fuel : Nat) (rest : List (List Nat)),
    markDfs fuel (setNodeState c7cyc 0 NodeState.DirtyMarked) ([1] :: rest) = none := by
  intro fuel
  induction fuel with
  | zero => intro rest; rfl
  | succ fuel ih =>
    intro rest
    show markDfs fuel (setNodeState c7cyc 0 NodeState.DirtyMarked) ([1] :: [] :: rest) = none
    exact ih ([] :: rest)

/-- C7 counterexample: `mark_descendants_dirty` does *not* terminate for
every finite node store and subscriber relation.  In the two-node store
`c7cyc` (finite: every id ≥ 2 is absent) the subscriber cycle consists of the
live Dirty node 1; starting from root 0 the traversal diverges — it returns
`none` for every fuel bound, i.e. no number of steps completes it.  Dirty
nodes are re-traversed on every visit (the skip guard only covers Check and
DirtyMarked, and only Clean nodes get promoted), so the claim's "regardless
of the initial states of the nodes on the cycle" is false. -/
theorem c7_dirty_cycle_diverges :
    (∀ n, 2 ≤ n → c7cyc.nodes n = none) ∧
    nodeState c7cyc 1 = NodeState.Dirty ∧
    1 ∈ ((c7cyc.nodeSubscribers 0).getD []) ∧
    1 ∈ ((c7cyc.nodeSubscribers 1).getD []) ∧
    ∀ fuel, markDescendantsDirty fuel c7cyc 0 = none := by
  refine ⟨?_, rfl, by decide, by decide, ?_⟩
  · intro n hn
    have h0 : n ≠ 0 := by omega
    have h1 : n ≠ 1 := by omega
    simp [c7cyc, freshRuntime, h0, h1]
  · intro fuel
    show markDfs fuel (setNodeState c7cyc 0 NodeState.DirtyMarked) ([1] :: []) = none
    exact c7_loop fuel []

/-- Total weight of a DFS stack: one unit per frame plus one per entry. -/
def stackWeight : List (List Nat) → Nat
  | [] => 0
  | f :: rest => f.length + 1 + stackWeight rest

/-- Whether node `i` is live and Clean. -/
def isCleanNode (rt : Runtime) (i : Nat) : Bool :=
  match rt.nodes i with
  | some nd => nd.state = NodeState.Clean
  | none => false

/-- Number of live Clean nodes with id below `bound`. -/
def cleanCount (bound : Nat) (rt : Runtime) : Nat :=
  (List.range bound).countP (fun i => isCleanNode rt i)

theorem countP_lt_of_update {l : List Nat} {c : Nat} {p q : Nat → Bool}
    (hnd : l.Nodup) (hc : c ∈ l) (hpc : p c = true) (hqc : q c = false)
    (hother : ∀ x, x ≠ c → q x = p x) : l.countP q < l.countP p := by
  induction l with
  | nil => cases hc
  | cons a t ih =>
    by_cases ha : a = c
    · subst ha
      have hnott : a ∉ t := (List.nodup_cons.mp hnd).1
      have heq : t.countP q = t.countP p :=
        List.countP_congr (fun x hx => by
          rw [hother x (fun hxc => hnott (hxc ▸ hx))])
      rw [List.countP_cons_of_pos p t hpc,
        List.countP_cons_of_neg q t (by rw [hqc]; exact Bool.false_ne_true), heq]
      omega
    · have hct : c ∈ t := by
        rcases List.mem_cons.mp hc with h | h
        · exact absurd h.symm ha
        · exact h
      have hq : q a = p a := hother a ha
      have hrec := ih (List.nodup_cons.mp hnd).2 hct
      rw [List.countP_cons, List.countP_cons, hq]
      omega

theorem foldl_max_init_le (f : Nat → Nat) :
    ∀ (l : List Nat) (acc : Nat), acc ≤ l.foldl (fun a x => max a (f x)) acc
  | [], acc => Nat.le_refl acc
  | x :: t, acc =>
    Nat.le_trans (Nat.le_max_left acc (f x)) (foldl_max_init_le f t _)

theorem mem_le_foldl_max (f : Nat → Nat) :
    ∀ (l : List Nat) (acc : Nat) {i : Nat}, i ∈ l →
      f i ≤ l.foldl (fun a x => max a (f x)) acc := by
  intro l
  induction l with
  | nil => intro acc i hi; cases hi
  | cons x t ih =>
    intro acc i hi
    rcases List.mem_cons.mp hi with rfl | hi
    · exact Nat.le_trans (Nat.le_max_right acc (f i)) (foldl_max_init_le f t _)
    · exact ih _ hi

/-- The marking DFS terminates (enough fuel succeeds) whenever no live node
is Dirty, the store is bounded, and `B` bounds the subscriber-set size of
every live node; measure: live-Clean count (lexicographically) over stack
weight. -/
theorem markDfs_term (bound B : Nat) :
    ∀ (mu : Nat) (st : Runtime) (stack : List (List Nat)),
      cleanCount bound st * (B + 1) + stackWeight stack ≤ mu →
      (∀ n nd, st.nodes n = some nd → nd.state ≠ NodeState.Dirty) →
      (∀ n, bound ≤ n → st.nodes n = none) →
      (∀ i nd, st.nodes i = some nd → ((st.nodeSubscribers i).getD []).length ≤ B) →
      ∃ fuel st', markDfs fuel st stack = some st' := by
  intro mu
  induction mu with
  | zero =>
    intro st stack hmu _ _ _
    match stack with
    | [] => exact ⟨1, st, rfl⟩
    | f :: rest =>
      exfalso
      simp only [stackWeight] at hmu
      omega
  | succ mu ih =>
    intro st stack hmu hnd hbd hB
    match stack with
    | [] => exact ⟨1, st, rfl⟩
    | [] :: rest =>
      have hmu2 : cleanCount bound st * (B + 1) + stackWeight rest ≤ mu := by
        simp only [stackWeight, List.length_nil] at hmu
        omega
      obtain ⟨fuel, st', h⟩ := ih st rest hmu2 hnd hbd hB
      exact ⟨fuel + 1, st', by rw [markDfs_step_pop]; exact h⟩
    | (c :: cs) :: rest =>
      have hwtail : stackWeight (cs :: rest) + 1 = stackWeight ((c :: cs) :: rest) := by
        simp only [stackWeight, List.length_cons]
        omega
      cases hnode : st.nodes c with
      | none =>
        have hmu2 : cleanCount bound st * (B + 1) + stackWeight (cs :: rest) ≤ mu := by
          omega
        obtain ⟨fuel, st', h⟩ := ih st (cs :: rest) hmu2 hnd hbd hB
        exact ⟨fuel + 1, st', by rw [markDfs_step_dead hnode]; exact h⟩
      | some node =>
        by_cases hguard : node.state = NodeState.Check ∨ node.state = NodeState.DirtyMarked
        · have hmu2 : cleanCount bound st * (B + 1) + stackWeight (cs :: rest) ≤ mu := by
            omega
          obtain ⟨fuel, st', h⟩ := ih st (cs :: rest) hmu2 hnd hbd hB
          exact ⟨fuel + 1, st', by rw [markDfs_step_skip hnode hguard]; exact h⟩
        · have hclean : node.state = NodeState.Clean := by
            have hnotd := hnd c node hnode
            cases hst : node.state with
            | Clean => rfl
            | Dirty => exact absurd hst hnotd
            | Check => exact absurd (Or.inl hst) hguard
            | DirtyMarked => exact absurd (Or.inr hst) hguard
          have hclt : c < bound := by
            by_contra hge
            have := hbd c (by omega)
            rw [this] at hnode
            cases hnode
          have hnodes2 : (visitNode st c node).nodes c =
              some { node with state := NodeState.Check } :=
            visitNode_nodes_clean st hnode hclean
          have hcc : cleanCount bound (visitNode st c node) < cleanCount bound st := by
            refine countP_lt_of_update (List.nodup_range bound) (List.mem_range.mpr hclt)
              ?_ ?_ ?_
            · simp [isCleanNode, hnode, hclean]
            · simp [isCleanNode, hnodes2]
            · intro x hx
              simp [isCleanNode, visitNode_nodes_other st c node hx]
          have hnd2 : ∀ n nd, (visitNode st c node).nodes n = some nd →
              nd.state ≠ NodeState.Dirty := by
            intro n nd hn
            by_cases hnc : n = c
            · subst hnc
              rw [hnodes2] at hn
              cases hn
              intro hcon
              cases hcon
            · rw [visitNode_nodes_other st c node hnc] at hn
              exact hnd n nd hn
          have hbd2 : ∀ n, bound ≤ n → (visitNode st c node).nodes n = none := by
            intro n hn
            have hnc : n ≠ c := by omega
            rw [visitNode_nodes_other st c node hnc]
            exact hbd n hn
          have hB2 : ∀ i nd, (visitNode st c node).nodes i = some nd →
              (((visitNode st c node).nodeSubscribers i).getD []).length ≤ B := by
            intro i nd hi
            rw [congrFun (visitNode_nodeSubscribers st c node) i]
            by_cases hic : i = c
            · subst hic
              exact hB i node hnode
            · rw [visitNode_nodes_other st c node hic] at hi
              exact hB i nd hi
          have hprod : cleanCount bound (visitNode st c node) * (B + 1) + (B + 1) ≤
              cleanCount bound st * (B + 1) := by
            have h1 : cleanCount bound (visitNode st c node) + 1 ≤ cleanCount bound st := hcc
            calc cleanCount bound (visitNode st c node) * (B + 1) + (B + 1)
                = (cleanCount bound (visitNode st c node) + 1) * (B + 1) := by ring
              _ ≤ cleanCount bound st * (B + 1) := Nat.mul_le_mul_right (B + 1) h1
          cases hsub : (visitNode st c node).nodeSubscribers c with
          | none =>
            have hmu2 : cleanCount bound (visitNode st c node) * (B + 1) +
                stackWeight (cs :: rest) ≤ mu := by
              have := hprod
              omega
            obtain ⟨fuel, st', h⟩ := ih (visitNode st c node) (cs :: rest) hmu2 hnd2 hbd2 hB2
            exact ⟨fuel + 1, st', by rw [markDfs_step_visit_none hnode hguard hsub]; exact h⟩
          | some children =>
            have hlen : children.length ≤ B := by
              have := hB c node hnode
              rw [← congrFun (visitNode_nodeSubscribers st c node) c, hsub] at this
              exact this
            have hmu2 : cleanCount bound (visitNode st c node) * (B + 1) +
                stackWeight (children :: cs :: rest) ≤ mu := by
              have hw : stackWeight (children :: cs :: rest) =
                  children.length + 1 + stackWeight (cs :: rest) := rfl
              have := hprod
              omega
            obtain ⟨fuel, st', h⟩ :=
              ih (visitNode st c node) (children :: cs :: rest) hmu2 hnd2 hbd2 hB2
            exact ⟨fuel + 1, st', by rw [markDfs_step_visit_some hnode hguard hsub]; exact h⟩

/-- C7 (amended): `mark_descendants_dirty(root)` terminates (some fuel bound
completes it) for every finite node store — ids bounded by `bound` — and
every subscriber relation, including relations with cycles, provided no live
node is in state Dirty: Clean nodes on a cycle are promoted to Check at their
first visit and skipped afterwards, and Check/DirtyMarked nodes are skipped
outright.  (Per the counterexample, a cycle of *Dirty* nodes is re-traversed
forever, so the proviso cannot be dropped.) -/
theorem c7_mark_terminates_no_dirty (rt : Runtime) (root bound : Nat)
    (hnd : ∀ n nd, rt.nodes n = some nd → nd.state ≠ NodeState.Dirty)
    (hbd : ∀ n, bound ≤ n → rt.nodes n = none) :
    ∃ fuel rt', markDescendantsDirty fuel rt root = some rt' := by
  cases hroot : rt.nodes root with
  | none => exact ⟨0, rt, by simp [markDescendantsDirty, hroot]⟩
  | some node =>
    by_cases hdm : node.state = NodeState.DirtyMarked
    · exact ⟨0, rt, by simp [markDescendantsDirty, hroot, if_pos hdm]⟩
    · cases hch : rt.nodeSubscribers root with
      | none =>
        exact ⟨0, setNodeState rt root NodeState.DirtyMarked,
          by simp [markDescendantsDirty, hroot, if_neg hdm, hch]⟩
      | some children =>
        have hnd0 : ∀ n nd, (setNodeState rt root NodeState.DirtyMarked).nodes n = some nd →
            nd.state ≠ NodeState.Dirty := by
          intro n nd hn
          by_cases hnr : n = root
          · subst hnr
            rw [setNodeState_nodes_self rt hroot NodeState.DirtyMarked] at hn
            cases hn
            intro hcon
            cases hcon
          · rw [setNodeState_nodes_other rt root _ hnr] at hn
            exact hnd n nd hn
        have hbd0 : ∀ n, bound ≤ n →
            (setNodeState rt root NodeState.DirtyMarked).nodes n = none := by
          intro n hn
          by_cases hnr : n = root
          · subst hnr
            rw [hbd n hn] at hroot
            cases hroot
          · rw [setNodeState_nodes_other rt root _ hnr]
            exact hbd n hn
        have hB0 : ∀ i nd, (setNodeState rt root NodeState.DirtyMarked).nodes i = some nd →
            (((setNodeState rt root NodeState.DirtyMarked).nodeSubscribers i).getD []).length ≤
              (List.range bound).foldl
                (fun a x => max a ((rt.nodeSubscribers x).getD []).length) 0 := by
          intro i nd hi
          rw [congrFun (setNodeState_nodeSubscribers rt root NodeState.DirtyMarked) i]
          have hib : i < bound := by
            by_contra hge
            have h2 := hbd i (by omega)
            by_cases hir : i = root
            · subst hir
              rw [h2] at hroot
              cases hroot
            · rw [setNodeState_nodes_other rt root _ hir, h2] at hi
              cases hi
          exact mem_le_foldl_max (fun x => ((rt.nodeSubscribers x).getD []).length)
            (List.range bound) 0 (List.mem_range.mpr hib)
        obtain ⟨fuel, st', h⟩ := markDfs_term bound
          ((List.range bound).foldl (fun a x => max a ((rt.nodeSubscribers x).getD []).length) 0)
          (cleanCount bound (setNodeState rt root NodeState.DirtyMarked) *
            ((List.range bound).foldl
              (fun a x => max a ((rt.nodeSubscribers x).getD []).length) 0 + 1) +
            stackWeight [children])
          (setNodeState rt root NodeState.DirtyMarked) [children] (Nat.le_refl _) hnd0 hbd0 hB0
        refine ⟨fuel, st', ?_⟩
        simp only [markDescendantsDirty, hroot, if_neg hdm, hch]
        exact h

/-- C7 witness: the amended termination theorem at the concrete two-node
store `c6rt` (bound 2). -/
theorem c7_mark_terminates_no_dirty_witness :
    ∃ fuel rt', markDescendantsDirty fuel c6rt 0 = some rt' :=
  c7_mark_terminates_no_dirty c6rt 0 2
    (by
      intro n nd h
      by_cases h0 : n = 0
      · subst h0
        simp [c6rt, freshRuntime] at h
        rw [← h]
        decide
      · by_cases h1 : n = 1
        · subst h1
          simp [c6rt, freshRuntime, h0] at h
          rw [← h]
          decide
        · simp [c6rt, freshRuntime, h0, h1] at h)
    (by
      intro n hn
      have h0 : n ≠ 0 := by omega
      have h1 : n ≠ 1 := by omega
      simp [c6rt, freshRuntime, h0, h1])

end Cuite
